import Mathlib

/-!
Verification development for the RosScope runtime engine.

Shallow embedding of the C++ sources under src/ (Qt-based runtime
observability engine): the snapshot synchronizer (runtime_worker.cpp),
the remote fleet executor with its circuit breaker and offline queue
(remote_monitor.cpp), the incremental process sampler
(process_manager.cpp), the health evaluator (health_monitor.cpp) and the
snapshot diff (snapshot_diff.cpp).

QHash / QMap / QJsonObject instances are embedded as association lists
with last-insert-wins replace semantics; QJson values as the inductive
type JVal; qulonglong arithmetic as Nat with explicit reduction mod 2^64;
double arithmetic on CPU percentages as exact rational arithmetic.
-/

namespace RosScope

/-! ## Association-list maps (embedding of QHash / QMap / QJsonObject) -/

section Maps

variable {κ α : Type} [DecidableEq κ]

/-- Keys of an association-list map. -/
def mkeys (m : List (κ × α)) : List κ := m.map (·.1)

/-- Lookup in an association-list map (first binding wins, as find?). -/
def mfind : List (κ × α) → κ → Option α
  | [], _ => none
  | p :: rest, k => if p.1 = k then some p.2 else mfind rest k

/-- Removal, as QHash::remove / QJsonObject::remove. -/
def mremove (m : List (κ × α)) (k : κ) : List (κ × α) :=
  m.filter (fun p => decide (p.1 ≠ k))

/-- Insert with replace semantics, as QHash::insert / QJsonObject::insert. -/
def minsert (m : List (κ × α)) (k : κ) (v : α) : List (κ × α) :=
  (k, v) :: mremove m k

/-- Containment test, as QHash::contains. -/
def mcontains (m : List (κ × α)) (k : κ) : Bool :=
  (mfind m k).isSome

@[simp]
theorem mfind_nil (k : κ) : mfind ([] : List (κ × α)) k = none := rfl

theorem mfind_cons (p : κ × α) (m : List (κ × α)) (k : κ) :
    mfind (p :: m) k = if p.1 = k then some p.2 else mfind m k := rfl

theorem mremove_cons (p : κ × α) (m : List (κ × α)) (k : κ) :
    mremove (p :: m) k =
      if p.1 = k then mremove m k else p :: mremove m k := by
  by_cases h : p.1 = k <;> simp [mremove, List.filter_cons, h]

theorem mfind_mremove (m : List (κ × α)) (k j : κ) :
    mfind (mremove m k) j = if j = k then none else mfind m j := by
  induction m with
  | nil => by_cases h : j = k <;> simp [mremove, h]
  | cons p rest ih =>
    rw [mremove_cons]
    by_cases hpk : p.1 = k
    · rw [if_pos hpk, ih]
      by_cases hj : j = k
      · simp [hj]
      · have hpj : p.1 ≠ j := fun he => hj (by rw [← he, hpk])
        simp [hj, mfind_cons, hpj]
    · rw [if_neg hpk, mfind_cons, mfind_cons, ih]
      by_cases hpj : p.1 = j
      · have hjk : ¬ j = k := fun he => hpk (hpj.trans he)
        simp [hpj, hjk]
      · simp [hpj]

theorem mfind_minsert (m : List (κ × α)) (k j : κ) (v : α) :
    mfind (minsert m k v) j = if j = k then some v else mfind m j := by
  by_cases h : j = k
  · simp [minsert, mfind_cons, h]
  · have hkj : ¬ k = j := fun he => h he.symm
    simp [minsert, mfind_cons, hkj, mfind_mremove, h]

@[simp]
theorem mfind_minsert_self (m : List (κ × α)) (k : κ) (v : α) :
    mfind (minsert m k v) k = some v := by
  simp [mfind_minsert]

theorem mfind_minsert_ne (m : List (κ × α)) (k j : κ) (v : α) (h : j ≠ k) :
    mfind (minsert m k v) j = mfind m j := by
  simp [mfind_minsert, h]

theorem mkeys_cons (p : κ × α) (m : List (κ × α)) :
    mkeys (p :: m) = p.1 :: mkeys m := rfl

theorem mem_mkeys_iff_mfind {m : List (κ × α)} {k : κ} :
    k ∈ mkeys m ↔ (mfind m k).isSome := by
  induction m with
  | nil => simp [mkeys]
  | cons p rest ih =>
    rw [mfind_cons, mkeys_cons, List.mem_cons]
    by_cases h : p.1 = k
    · simp [h]
    · have hne : ¬ k = p.1 := fun he => h he.symm
      simp [h, hne, ih]

theorem mem_mkeys_mremove {m : List (κ × α)} {k j : κ} :
    j ∈ mkeys (mremove m k) ↔ j ∈ mkeys m ∧ j ≠ k := by
  by_cases h : j = k
  · simp [mem_mkeys_iff_mfind, mfind_mremove, h]
  · simp [mem_mkeys_iff_mfind, mfind_mremove, h]

theorem mem_mkeys_minsert {m : List (κ × α)} {k j : κ} {v : α} :
    j ∈ mkeys (minsert m k v) ↔ j = k ∨ j ∈ mkeys m := by
  by_cases h : j = k
  · simp [mem_mkeys_iff_mfind, mfind_minsert, h]
  · simp [mem_mkeys_iff_mfind, mfind_minsert, h]

theorem mfind_eq_some_mem {m : List (κ × α)} {k : κ} {v : α} :
    mfind m k = some v → (k, v) ∈ m := by
  induction m with
  | nil => simp
  | cons p rest ih =>
    rw [mfind_cons]
    by_cases h : p.1 = k
    · intro hv
      rw [if_pos h] at hv
      obtain ⟨p1, p2⟩ := p
      obtain rfl : p1 = k := h
      obtain rfl : p2 = v := by simpa using hv
      exact List.mem_cons_self _ _
    · intro hv
      rw [if_neg h] at hv
      exact List.mem_cons_of_mem _ (ih hv)

end Maps

/-! ## QJson value model -/

/-- Embedding of QJsonValue: null / bool / number (integral uses only in the
claims at hand) / string / array / object. -/
inductive JVal where
  | null : JVal
  | bool : Bool → JVal
  | int : Int → JVal
  | str : String → JVal
  | arr : List JVal → JVal
  | obj : List (String × JVal) → JVal

namespace JVal

/-- QJsonValue::toArray with default empty array. -/
def toArr : JVal → List JVal
  | .arr xs => xs
  | _ => []

/-- QJsonValue::toObject with default empty object. -/
def toObj : JVal → List (String × JVal)
  | .obj fs => fs
  | _ => []

/-- QJsonValue::toString with default empty string. -/
def asStr : JVal → String
  | .str s => s
  | _ => ""

/-- QJsonValue::toString with an explicit default. -/
def asStrD (d : String) : JVal → String
  | .str s => s
  | _ => d

/-- QJsonValue::toInt with an explicit default. -/
def asIntD (d : Int) : JVal → Int
  | .int n => n
  | _ => d

/-- QJsonValue::toBool with an explicit default. -/
def asBoolD (d : Bool) : JVal → Bool
  | .bool b => b
  | _ => d

/-- QJsonObject::value: null (undefined) when the key is absent. -/
def objGet (v : JVal) (k : String) : JVal :=
  (mfind v.toObj k).getD .null

end JVal

/-! ## Snapshot diff (src/src/services/snapshot_diff.cpp) -/

namespace SnapshotDiff

/-- Embedding of the anonymous toSet helper: collect the string members of a
QJsonArray into a QSet (here: a duplicate-free list, first occurrence kept). -/
def toSet (xs : List JVal) : List String :=
  xs.foldl (fun acc v => if v.asStr ∈ acc then acc else acc ++ [v.asStr]) []

/-- QSet difference x - y, as used for added/removed sets. -/
def setMinus (x y : List String) : List String :=
  x.filter (fun s => decide (s ∉ y))

/-- Embedding of the sortedArray helper: sorted list of set members. -/
def sortedArray (s : List String) : List JVal :=
  (s.mergeSort (fun a b => decide (a ≤ b))).map .str

/-- Embedding of SnapshotDiff::nodeList: full_name of every graph node. -/
def nodeList (snapshot : JVal) : List JVal :=
  ((snapshot.objGet "graph").objGet "nodes").toArr.map
    (fun nodeValue => .str ((nodeValue.objGet "full_name").asStr))

/-- Embedding of SnapshotDiff::topicList: topic of every graph topic row. -/
def topicList (snapshot : JVal) : List JVal :=
  ((snapshot.objGet "graph").objGet "topics").toArr.map
    (fun topicValue => .str ((topicValue.objGet "topic").asStr))

/-- Embedding of SnapshotDiff::domainList: domain_id of every domain row. -/
def domainList (snapshot : JVal) : List JVal :=
  (snapshot.objGet "domains").toArr.map
    (fun domainValue => .str ((domainValue.objGet "domain_id").asStrD "0"))

/-- Embedding of SnapshotDiff::paramHashes, with the SHA-256 of each
parameter dump abstracted as a hash function argument. -/
def paramHashes (sha : String → String) (snapshot : JVal) : List (String × JVal) :=
  (snapshot.objGet "parameters").toObj.foldl
    (fun hashes p => minsert hashes p.1 (.str (sha (p.2.asStr)))) []

/-- Set of keys of both parameter-hash maps (QSet iteration order abstracted
as the concatenated dedup). -/
def allParamNodes (l r : List (String × JVal)) : List String :=
  (mkeys l ++ mkeys r).foldl (fun acc k => if k ∈ acc then acc else acc ++ [k]) []

/-- Embedding of SnapshotDiff::compare. -/
def compare (sha : String → String) (left right : JVal) : JVal :=
  let leftNodes := toSet (nodeList left)
  let rightNodes := toSet (nodeList right)
  let leftTopics := toSet (topicList left)
  let rightTopics := toSet (topicList right)
  let leftDomains := toSet (domainList left)
  let rightDomains := toSet (domainList right)
  let nodesAdded := setMinus rightNodes leftNodes
  let nodesRemoved := setMinus leftNodes rightNodes
  let topicsAdded := setMinus rightTopics leftTopics
  let topicsRemoved := setMinus leftTopics rightTopics
  let domainsAdded := setMinus rightDomains leftDomains
  let domainsRemoved := setMinus leftDomains rightDomains
  let leftParamHashes := paramHashes sha left
  let rightParamHashes := paramHashes sha right
  let paramChanged :=
    (allParamNodes leftParamHashes rightParamHashes).filter
      (fun node =>
        decide (((mfind leftParamHashes node).getD .null).asStr
          ≠ ((mfind rightParamHashes node).getD .null).asStr))
  let summary : List (String × JVal) :=
    minsert (minsert (minsert (minsert (minsert (minsert (minsert []
      "nodes_added" (.int nodesAdded.length))
      "nodes_removed" (.int nodesRemoved.length))
      "topics_added" (.int topicsAdded.length))
      "topics_removed" (.int topicsRemoved.length))
      "domains_added" (.int domainsAdded.length))
      "domains_removed" (.int domainsRemoved.length))
      "parameters_changed" (.int paramChanged.length)
  let diff : List (String × JVal) :=
    minsert (minsert (minsert (minsert (minsert (minsert (minsert (minsert []
      "summary" (.obj summary))
      "nodes_added" (.arr (sortedArray nodesAdded)))
      "nodes_removed" (.arr (sortedArray nodesRemoved)))
      "topics_added" (.arr (sortedArray topicsAdded)))
      "topics_removed" (.arr (sortedArray topicsRemoved)))
      "domains_added" (.arr (sortedArray domainsAdded)))
      "domains_removed" (.arr (sortedArray domainsRemoved)))
      "parameters_changed" (.arr (paramChanged.map .str))
  .obj diff

end SnapshotDiff

/-! ## Health evaluator (src/src/services/health_monitor.cpp) -/

namespace HealthMonitor

/-- QSet of QString insert (membership-guarded append). -/
def qsetInsert (s : List String) (x : String) : List String :=
  if x ∈ s then s else s ++ [x]

/-- First loop of HealthMonitor::evaluate: accumulate the zombie-node rows
(domain nodes whose pid, defaulted to -1, is negative) and the
full-name-to-domain-set map. -/
def zombieScan (domains : List JVal) : List JVal × List (String × List String) :=
  domains.foldl
    (fun acc domainValue =>
      let domainId := (domainValue.objGet "domain_id").asStrD "0"
      ((domainValue.objGet "nodes").toArr.foldl
        (fun acc2 nodeValue =>
          let fullName := (nodeValue.objGet "full_name").asStr
          let nodeDomains :=
            minsert acc2.2 fullName
              (qsetInsert ((mfind acc2.2 fullName).getD []) domainId)
          if (nodeValue.objGet "pid").asIntD (-1) < 0 then
            (acc2.1 ++
              [JVal.obj (minsert (minsert [] "domain_id" (.str domainId))
                "node" (.str fullName))],
             nodeDomains)
          else
            (acc2.1, nodeDomains))
        acc)) ([], [])

/-- Zombie-node rows of HealthMonitor::evaluate. -/
def zombieNodes (domains : List JVal) : List JVal :=
  (zombieScan domains).1

/-- Domain-conflict rows: full node names registered in more than one
domain. -/
def domainConflicts (domains : List JVal) : List JVal :=
  (zombieScan domains).2.foldl
    (fun acc p =>
      if p.2.length > 1 then
        acc ++
          [JVal.obj (minsert (minsert [] "node" (.str p.1))
            "domains" (.arr (p.2.map .str)))]
      else acc) []

/-- Embedding of HealthMonitor::evaluate: a pure function of
(domains, graph, tfNav2). -/
def evaluate (domains : List JVal) (graph tfNav2 : JVal) : JVal :=
  let zombies := zombieNodes domains
  let conflicts := domainConflicts domains
  let duplicateNodes := (graph.objGet "duplicate_node_names").toArr
  let noSubscriberTopics := (graph.objGet "publishers_without_subscribers").toArr
  let noPublisherTopics := (graph.objGet "subscribers_without_publishers").toArr
  let missingServiceServers := (graph.objGet "missing_service_servers").toArr
  let missingActionServers := (graph.objGet "missing_action_servers").toArr
  let misinitializedProcesses := (graph.objGet "misinitialized_processes").toArr
  let tfWarnings := (tfNav2.objGet "tf_warnings").toArr
  let goalActive := ((tfNav2.objGet "nav2").objGet "goal_active").asBoolD false
  let status :=
    if ¬ zombies.isEmpty ∨ ¬ conflicts.isEmpty ∨ ¬ misinitializedProcesses.isEmpty then
      "critical"
    else if ¬ duplicateNodes.isEmpty ∨ ¬ tfWarnings.isEmpty
        ∨ ¬ noSubscriberTopics.isEmpty ∨ ¬ noPublisherTopics.isEmpty
        ∨ ¬ missingServiceServers.isEmpty ∨ ¬ missingActionServers.isEmpty then
      "warning"
    else
      "healthy"
  JVal.obj
    (minsert (minsert (minsert (minsert (minsert (minsert (minsert (minsert
      (minsert (minsert (minsert []
      "status" (.str status))
      "duplicate_nodes" (.arr duplicateNodes))
      "zombie_nodes" (.arr zombies))
      "domain_conflicts" (.arr conflicts))
      "publishers_without_subscribers" (.arr noSubscriberTopics))
      "subscribers_without_publishers" (.arr noPublisherTopics))
      "missing_service_servers" (.arr missingServiceServers))
      "missing_action_servers" (.arr missingActionServers))
      "misinitialized_processes" (.arr misinitializedProcesses))
      "tf_warnings" (.arr tfWarnings))
      "nav2_goal_active" (.bool goalActive))

end HealthMonitor

/-! ## Runtime orchestrator action dispatch (src/src/services/runtime_worker.cpp) -/

namespace RuntimeWorker

/-- All action names recognized by RuntimeWorker::runAction (the closed
dispatch chain, in source order). -/
def recognizedActions : List String :=
  ["terminate_pid", "kill_pid", "kill_tree", "kill_all_ros", "restart_domain",
   "clear_shared_memory", "restart_workspace", "snapshot_json", "snapshot_yaml",
   "compare_snapshots", "compare_with_previous", "session_start", "session_stop",
   "session_export", "export_telemetry", "save_preset", "load_preset",
   "watchdog_enable", "watchdog_disable", "isolate_domain", "fleet_load_targets",
   "fleet_refresh", "remote_action"]

/-- Embedding of the final guard of RuntimeWorker::runAction: the condition
under which the orchestrator re-issues poll(request_) after finishing the
action. -/
def queuesImmediateRepoll (action : String) : Bool :=
  action != "snapshot_json" && action != "snapshot_yaml"
    && action != "compare_snapshots" && action != "compare_with_previous"
    && action != "session_export"

end RuntimeWorker

/-! ## Remote monitor (src/src/services/remote_monitor.cpp) -/

namespace RemoteMonitor

/-- Embedding of RemoteMonitor::Target. -/
structure Target where
  name : String
  host : String
  user : String
  port : Int
  domainId : String
  rosSetup : String

/-- Embedding of RemoteMonitor::CircuitState (member defaults 0, 0). -/
structure CircuitState where
  failures : Nat
  openUntilMs : Int

/-- Per-(target|action) circuit map, as the QMap circuit_. -/
abbrev CircuitMap := List (String × CircuitState)

/-- Member initializer circuitFailureThreshold_ = 4. -/
def circuitFailureThreshold : Nat := 4

/-- Member initializer circuitCooldownMs_ = 30000. -/
def circuitCooldownMs : Int := 30000

/-- Member initializer maxRetries_ = 3. -/
def maxRetries : Nat := 3

/-- Member initializer maxOfflineQueue_ = 600. -/
def maxOfflineQueue : Nat := 600

/-- Embedding of RemoteMonitor::isCircuitOpen, with the current epoch
milliseconds passed explicitly. -/
def isCircuitOpen (circuit : CircuitMap) (key : String) (now : Int) : Bool :=
  match mfind circuit key with
  | none => false
  | some st => st.openUntilMs > now

/-- Embedding of RemoteMonitor::onCircuitSuccess. -/
def onCircuitSuccess (circuit : CircuitMap) (key : String) : CircuitMap :=
  mremove circuit key

/-- Embedding of RemoteMonitor::onCircuitFailure. -/
def onCircuitFailure (circuit : CircuitMap) (key : String) (now : Int) : CircuitMap :=
  let st := (mfind circuit key).getD ⟨0, 0⟩
  let st1 : CircuitState := { st with failures := st.failures + 1 }
  let st2 : CircuitState :=
    if st1.failures ≥ circuitFailureThreshold then
      { st1 with openUntilMs := now + circuitCooldownMs }
    else st1
  minsert circuit key st2

/-- One queued offline remote action (the QJsonObject enqueued on persistent
failure). -/
structure QueuedAction where
  target : String
  action : String
  domainId : String
  queuedUtc : String

/-- On-disk state of state/offline_remote_queue.json as seen by loadQueue:
missing, unreadable (open fails) or readable with some content. -/
inductive FileState where
  | missing : FileState
  | unreadable : FileState
  | readable : String → FileState

/-- File operations performed by persistQueue on the queue file; renameFile
is part of the vocabulary so that its absence from the emitted traces is a
statement about the source. -/
inductive FsOp where
  | truncateOpen : FsOp
  | writeContent : String → FsOp
  | closeFile : FsOp
  | renameFile : String → String → FsOp

/-- Whether an operation is a rename. -/
def FsOp.isRenameOp : FsOp → Bool
  | .renameFile _ _ => true
  | _ => false

/-- Effect of one file operation on the queue-file content (none = missing). -/
def applyFsOp (content : Option String) : FsOp → Option String
  | .truncateOpen => some ""
  | .writeContent s => some s
  | .closeFile => content
  | .renameFile _ _ => content

/-- Running a list of file operations to completion. -/
def runFsOps (content : Option String) (ops : List FsOp) : Option String :=
  ops.foldl applyFsOp content

/-- Content of the queue file if the process crashes after the first n of
the operations. -/
def crashAfter (content : Option String) (ops : List FsOp) (n : Nat) : Option String :=
  runFsOps content (ops.take n)

/-- Embedding of RemoteMonitor::loadQueue: a missing file clears the queue;
an unreadable file returns with the in-memory queue untouched; readable
content replaces the queue only when it parses as a JSON array (the parser
QJsonDocument::fromJson + isArray is abstracted as the parse argument). -/
def loadQueue (fs : FileState) (parse : String → Option (List QueuedAction))
    (q : List QueuedAction) : List QueuedAction :=
  match fs with
  | .missing => []
  | .unreadable => q
  | .readable content =>
    match parse content with
    | some arr => arr
    | none => q

/-- Embedding of RemoteMonitor::persistQueue as the file-operation trace it
performs: open the real queue file with Truncate (silently returning on
failure), write the serialized queue (the serializer
QJsonDocument::toJson(Indented) is abstracted as the encode argument), and
close. No temporary file and no rename is involved. -/
def persistQueueOps (encode : List QueuedAction → String)
    (q : List QueuedAction) (openOk : Bool) : List FsOp :=
  if openOk then [.truncateOpen, .writeContent (encode q), .closeFile] else []

/-- The while-loop of enqueueOfflineAction: drop the oldest entry while the
queue exceeds maxOfflineQueue_. -/
def trimQueue (q : List QueuedAction) : List QueuedAction :=
  if h : q.length > maxOfflineQueue then
    trimQueue q.tail
  else q
termination_by q.length
decreasing_by
  cases q with
  | nil => simp [maxOfflineQueue] at h
  | cons a rest => simp

/-- Embedding of RemoteMonitor::enqueueOfflineAction: reload from disk when
the in-memory queue is empty, append the action, trim to the cap, then
persist; returns the new in-memory queue and the file-operation trace of the
persist step. -/
def enqueueOfflineAction (fs : FileState)
    (parse : String → Option (List QueuedAction))
    (encode : List QueuedAction → String)
    (q : List QueuedAction) (a : QueuedAction) (openOk : Bool) :
    List QueuedAction × List FsOp :=
  let q0 := if q.isEmpty then loadQueue fs parse q else q
  let q1 := trimQueue (q0 ++ [a])
  (q1, persistQueueOps encode q1 openOk)

/-- Result record of executeRemoteActionInternal, extended with the number
of ssh invocations performed (the model of CommandRunner::run calls) and the
updated monitor state. -/
structure ExecOutcome where
  success : Bool
  error : Option String
  retryCount : Nat
  sshInvocations : Nat
  circuit : CircuitMap
  queue : List QueuedAction
  fsOps : List FsOp

/-- Error string returned while the circuit is open. -/
def circuitOpenError : String := "Circuit breaker open; cooldown active."

/-- The retry loop of executeRemoteActionInternal: up to maxRetries_ ssh
attempts (outcomes given by the ssh argument), breaking on the first
success (clearing the circuit) and recording a circuit failure otherwise.
Returns (last result success, retriesUsed, ssh invocations, circuit). -/
def attemptLoop (ssh : Nat → Bool) (key : String) (now : Int)
    (attempt retriesUsed sshCount : Nat) (circuit : CircuitMap) :
    Bool × Nat × Nat × CircuitMap :=
  if attempt < maxRetries then
    if ssh attempt then
      (true, retriesUsed, sshCount + 1, onCircuitSuccess circuit key)
    else
      attemptLoop ssh key now (attempt + 1) (attempt + 1) (sshCount + 1)
        (onCircuitFailure circuit key now)
  else
    (false, retriesUsed, sshCount, circuit)
termination_by maxRetries - attempt
decreasing_by omega

/-- Embedding of RemoteMonitor::executeRemoteActionInternal: find the
target by name, reject while the per-(target|action) circuit is open without
any ssh attempt, reject unsupported actions, otherwise run the retry loop
and enqueue to the offline queue on persistent failure when queue writes are
allowed. -/
def executeRemoteActionInternal (targets : List Target) (ssh : Nat → Bool)
    (now : Int) (fs : FileState)
    (parse : String → Option (List QueuedAction))
    (encode : List QueuedAction → String) (openOk : Bool)
    (targetName action domainId queuedUtc : String)
    (circuit : CircuitMap) (queue : List QueuedAction)
    (allowQueueWrite : Bool) : ExecOutcome :=
  match targets.find? (fun t => t.name == targetName) with
  | none =>
    { success := false, error := some "Remote target not found.",
      retryCount := 0, sshInvocations := 0, circuit := circuit,
      queue := queue, fsOps := [] }
  | some target =>
    let circuitKey := target.name ++ "|" ++ action
    if isCircuitOpen circuit circuitKey now then
      { success := false, error := some circuitOpenError,
        retryCount := 0, sshInvocations := 0, circuit := circuit,
        queue := queue, fsOps := [] }
    else if action ≠ "restart_domain" ∧ action ≠ "kill_ros"
        ∧ action ≠ "isolate_domain" then
      { success := false, error := some "Unsupported remote action.",
        retryCount := 0, sshInvocations := 0, circuit := circuit,
        queue := queue, fsOps := [] }
    else
      let out := attemptLoop ssh circuitKey now 0 0 0 circuit
      if ¬ out.1 ∧ allowQueueWrite then
        let enq := enqueueOfflineAction fs parse encode queue
          ⟨targetName, action, domainId, queuedUtc⟩ openOk
        { success := out.1, error := none, retryCount := out.2.1,
          sshInvocations := out.2.2.1, circuit := out.2.2.2,
          queue := enq.1, fsOps := enq.2 }
      else
        { success := out.1, error := none, retryCount := out.2.1,
          sshInvocations := out.2.2.1, circuit := out.2.2.2,
          queue := queue, fsOps := [] }

end RemoteMonitor

namespace RemoteMonitor

theorem trimQueue_of_le (q : List QueuedAction) (h : q.length ≤ maxOfflineQueue) :
    trimQueue q = q := by
  rw [trimQueue]
  simp [Nat.not_lt.mpr h]

theorem trimQueue_of_one_over (q : List QueuedAction)
    (h : q.length = maxOfflineQueue + 1) :
    trimQueue q = q.tail := by
  rw [trimQueue]
  have hgt : q.length > maxOfflineQueue := by omega
  rw [dif_pos hgt]
  apply trimQueue_of_le
  have : q.tail.length = q.length - 1 := by simp
  omega

theorem attemptLoop_from_zero (ssh : Nat → Bool) (key : String) (now : Int)
    (circuit : CircuitMap) :
    attemptLoop ssh key now 0 0 0 circuit =
      if ssh 0 then (true, 0, 1, onCircuitSuccess circuit key)
      else if ssh 1 then
        (true, 1, 2, onCircuitSuccess (onCircuitFailure circuit key now) key)
      else if ssh 2 then
        (true, 2, 3,
          onCircuitSuccess
            (onCircuitFailure (onCircuitFailure circuit key now) key now) key)
      else
        (false, 3, 3,
          onCircuitFailure
            (onCircuitFailure (onCircuitFailure circuit key now) key now)
            key now) := by
  rw [attemptLoop]
  by_cases h0 : ssh 0
  · simp [maxRetries, h0]
  · rw [attemptLoop]
    by_cases h1 : ssh 1
    · simp [maxRetries, h0, h1]
    · rw [attemptLoop]
      by_cases h2 : ssh 2
      · simp [maxRetries, h0, h1, h2]
      · rw [attemptLoop]
        simp [maxRetries, h0, h1, h2]

end RemoteMonitor

/-! ## Snapshot synchronizer (tail of RuntimeWorker::pollNow) -/

namespace RuntimeWorker

/-- Sync-related state of the runtime worker across polls. Modelled from the
spec: the member declarations of syncVersion_, lastSyncFingerprint_,
consecutiveNoChangePolls_ and idleBackoffMs_ are missing from the sources
provided (include/rrcc/runtime_worker.hpp is stale and lacks them); the spec
describes them as the monotone sync counter, the last fingerprint, the
no-change streak and the idle backoff. -/
structure SyncState where
  syncVersion : Int
  lastSyncFingerprint : String
  consecutiveNoChangePolls : Int
  idleBackoffMs : Int

/-- Modelled from the spec: the member declaration of maxBackoffMs_ is
missing from the sources provided; the spec fixes max_backoff_ms = 12000. -/
def maxBackoffMs : Int := 12000

/-- The section values a poll feeds into the response and the section-hash
map (the lastX_ caches at the point where pollNow assembles the response). -/
structure PollSections where
  processesAll : JVal
  processesVisible : JVal
  domainSummaries : JVal
  domains : JVal
  graph : JVal
  tfNav2 : JVal
  system : JVal
  logs : String
  health : JVal
  nodeParameters : JVal
  advanced : JVal
  fleet : JVal
  session : JVal
  watchdog : JVal

/-- The section-hash map of pollNow, in source order. The SHA-1 of the
compact JSON encoding (compactHash / compactHashArray / compactHashText) is
abstracted as one hash function on the hashed JSON value. timestamp_utc is
not among the hashed sections. -/
def sectionHashes (hash : JVal → String) (sec : PollSections) :
    List (String × JVal) :=
  [("processes_visible", .str (hash sec.processesVisible)),
   ("domain_summaries", .str (hash sec.domainSummaries)),
   ("domains", .str (hash sec.domains)),
   ("graph", .str (hash sec.graph)),
   ("tf_nav2", .str (hash sec.tfNav2)),
   ("system", .str (hash sec.system)),
   ("health", .str (hash sec.health)),
   ("advanced", .str (hash sec.advanced)),
   ("fleet", .str (hash sec.fleet)),
   ("session", .str (hash sec.session)),
   ("watchdog", .str (hash sec.watchdog)),
   ("logs", .str (hash (.str sec.logs)))]

/-- The snapshot fingerprint (etag): compactHash of the section-hash map. -/
def fingerprintOf (hash : JVal → String) (sec : PollSections) : String :=
  hash (.obj (sectionHashes hash sec))

/-- Embedding of RuntimeWorker::buildResponse (insertion order as in the
source; parameterCache_ is sec.nodeParameters). -/
def buildResponse (timestampUtc presetName selectedDomain : String)
    (sec : PollSections) (syncVersion : Int)
    (processOffset processLimit : Int) : List (String × JVal) :=
  minsert (minsert (minsert (minsert (minsert (minsert (minsert (minsert
    (minsert (minsert (minsert (minsert (minsert (minsert (minsert (minsert
    (minsert (minsert (minsert (minsert []
    "timestamp_utc" (.str timestampUtc))
    "preset_name" (.str presetName))
    "selected_domain" (.str selectedDomain))
    "processes_all" sec.processesAll)
    "processes_visible" sec.processesVisible)
    "domain_summaries" sec.domainSummaries)
    "domains" sec.domains)
    "graph" sec.graph)
    "tf_nav2" sec.tfNav2)
    "system" sec.system)
    "logs" (.str sec.logs))
    "health" sec.health)
    "node_parameters" sec.nodeParameters)
    "advanced" sec.advanced)
    "fleet" sec.fleet)
    "session" sec.session)
    "watchdog" sec.watchdog)
    "sync_version" (.int syncVersion))
    "process_offset" (.int processOffset))
    "process_limit" (.int processLimit)

/-- The three inserts pollNow performs on the response right after
buildResponse (pagination echo). -/
def pollResponseBase (timestampUtc presetName selectedDomain : String)
    (sec : PollSections) (syncVersion : Int)
    (processOffset processLimit processTotalFiltered : Int) :
    List (String × JVal) :=
  minsert (minsert (minsert
    (buildResponse timestampUtc presetName selectedDomain sec syncVersion
      processOffset processLimit)
    "process_total_filtered" (.int processTotalFiltered))
    "process_offset" (.int processOffset))
    "process_limit" (.int processLimit)

/-- The keys removed from the response when a heartbeat is returned, in
source order. -/
def heavyKeys : List String :=
  ["processes_all", "processes_visible", "domain_summaries", "domains",
   "graph", "tf_nav2", "system", "logs", "health", "advanced", "fleet",
   "session", "watchdog", "node_parameters"]

/-- Embedding of the tail of RuntimeWorker::pollNow: compute the section
hashes and the fingerprint, update the sync state (version bump / backoff
doubling), annotate the response, and strip it to a heartbeat when nothing
changed and the caller is already at the current sync version. -/
def pollFinalize (hash : JVal → String) (st : SyncState) (sec : PollSections)
    (sinceVersion : Int) (response0 : List (String × JVal)) :
    SyncState × List (String × JVal) :=
  let hashes := sectionHashes hash sec
  let fingerprint := fingerprintOf hash sec
  let changed : Bool := fingerprint != st.lastSyncFingerprint
  let st1 : SyncState :=
    if changed then
      { syncVersion := st.syncVersion + 1
        lastSyncFingerprint := fingerprint
        consecutiveNoChangePolls := 0
        idleBackoffMs := 1000 }
    else
      { st with
        consecutiveNoChangePolls := st.consecutiveNoChangePolls + 1
        idleBackoffMs := min maxBackoffMs (st.idleBackoffMs * 2) }
  let r := minsert response0 "sync_version" (.int st1.syncVersion)
  let r := minsert r "etag" (.str fingerprint)
  let r := minsert r "changed" (.bool changed)
  let r := minsert r "changed_sections" (.obj hashes)
  let r := minsert r "idle_backoff_ms" (.int st1.idleBackoffMs)
  let r := minsert r "offline_queue_size" (sec.fleet.objGet "offline_queue_size")
  let r :=
    if !changed && (sinceVersion == st1.syncVersion) then
      minsert (heavyKeys.foldl mremove r) "heartbeat_only" (.bool true)
    else r
  (st1, r)

end RuntimeWorker

section MapFoldLemmas

variable {κ α : Type} [DecidableEq κ]

theorem mfind_foldl_mremove_none (ks : List κ) (m : List (κ × α)) (k : κ)
    (h : mfind m k = none) : mfind (ks.foldl mremove m) k = none := by
  induction ks generalizing m with
  | nil => simpa using h
  | cons k0 rest ih =>
    simp only [List.foldl_cons]
    apply ih
    rw [mfind_mremove]
    by_cases hk : k = k0 <;> simp [hk, h]

theorem mfind_foldl_mremove_mem (ks : List κ) (m : List (κ × α)) (k : κ)
    (h : k ∈ ks) : mfind (ks.foldl mremove m) k = none := by
  induction ks generalizing m with
  | nil => simp at h
  | cons k0 rest ih =>
    simp only [List.foldl_cons]
    rcases List.mem_cons.mp h with rfl | hrest
    · apply mfind_foldl_mremove_none
      simp [mfind_mremove]
    · exact ih _ hrest

theorem mfind_foldl_mremove_not_mem (ks : List κ) (m : List (κ × α)) (k : κ)
    (h : k ∉ ks) : mfind (ks.foldl mremove m) k = mfind m k := by
  induction ks generalizing m with
  | nil => simp
  | cons k0 rest ih =>
    simp only [List.foldl_cons]
    have hk0 : k ≠ k0 := fun he => h (he ▸ List.mem_cons_self _ _)
    rw [ih _ (fun hr => h (List.mem_cons_of_mem _ hr)), mfind_mremove,
      if_neg hk0]

theorem mkeys_mremove (m : List (κ × α)) (k : κ) :
    mkeys (mremove m k) = (mkeys m).filter (fun x => decide (x ≠ k)) := by
  induction m with
  | nil => rfl
  | cons p rest ih =>
    rw [mremove_cons]
    by_cases h : p.1 = k <;> simp [h, mkeys_cons, List.filter_cons, ih]

theorem nodup_mkeys_mremove {m : List (κ × α)} {k : κ}
    (h : (mkeys m).Nodup) : (mkeys (mremove m k)).Nodup := by
  rw [mkeys_mremove]
  exact h.filter _

theorem nodup_mkeys_minsert {m : List (κ × α)} {k : κ} {v : α}
    (h : (mkeys m).Nodup) : (mkeys (minsert m k v)).Nodup := by
  rw [minsert, mkeys_cons]
  refine List.Nodup.cons ?_ (nodup_mkeys_mremove h)
  intro hk
  rcases mem_mkeys_mremove.mp hk with ⟨_, hne⟩
  exact hne rfl

theorem nodup_mkeys_foldl_mremove (ks : List κ) (m : List (κ × α))
    (h : (mkeys m).Nodup) : (mkeys (ks.foldl mremove m)).Nodup := by
  induction ks generalizing m with
  | nil => simpa using h
  | cons k0 rest ih =>
    simp only [List.foldl_cons]
    exact ih _ (nodup_mkeys_mremove h)

theorem mfind_of_mem_nodup {m : List (κ × α)} {k : κ} {v : α}
    (hnd : (mkeys m).Nodup) (hm : (k, v) ∈ m) : mfind m k = some v := by
  induction m with
  | nil => simp at hm
  | cons p rest ih =>
    rw [mkeys_cons, List.nodup_cons] at hnd
    rw [mfind_cons]
    rcases List.mem_cons.mp hm with rfl | hrest
    · simp
    · have hkmem : k ∈ mkeys rest := List.mem_map.mpr ⟨(k, v), hrest, rfl⟩
      have hk : p.1 ≠ k := fun he => hnd.1 (he ▸ hkmem)
      rw [if_neg hk]
      exact ih hnd.2 hrest

end MapFoldLemmas

/-! ## Process sampler (src/src/services/process_manager.cpp) -/

namespace ProcessManager

/-- The modulus of qulonglong arithmetic. -/
def U64 : Nat := 2 ^ 64

/-- Reduction into qulonglong range. -/
def u64 (n : Nat) : Nat := n % U64

/-- qulonglong subtraction with wraparound. -/
def u64sub (a b : Nat) : Nat := (u64 a + U64 - u64 b) % U64

/-- static_cast<qint64> of a qulonglong (two's-complement reinterpretation),
as in the adaptive-budget delta check. -/
def i64ofU64 (n : Nat) : Int :=
  if n < 2 ^ 63 then (n : Int) else (n : Int) - (U64 : Int)

/-- One row of the per-tick /proc model: everything collectLiteForPid,
fetchHeavyDetails and the scan read for one pid during one tick (/proc is
modelled as consistent within a tick; mid-tick disappearance is the statOk
= false case, the silent-skip path). statOk models that /proc/pid/stat was
readable, had the comm parentheses and at least 20 fields after them. The
deep-inspection derivations (readCmdline, readExePath, ROS classification,
node/namespace/workspace/package/launch detection) are string functions of
the pid's /proc files, so their results are carried as entry fields. -/
structure ProcEntry where
  pid : Int := -1
  statOk : Bool := false
  comm : String := ""
  state : String := ""
  ppid : Int := -1
  utime : Nat := 0
  stime : Nat := 0
  threads : Int := 0
  starttimeTicks : Nat := 0
  vmRssKb : Nat := 0
  cmdline : String := ""
  exe : String := ""
  envDomainId : String := "0"
  rosClassified : Bool := false
  nodeName : String := ""
  nameSpace : String := "/"
  workspaceOrigin : String := ""
  packageName : String := ""
  launchSource : String := ""
  cgroup : String := ""
  openFdCount : Nat := 0

/-- Embedding of ProcessManager::ProcLite with its member defaults. -/
structure ProcLite where
  pid : Int := -1
  ppid : Int := -1
  name : String := ""
  state : String := ""
  cpuPercent : ℚ := 0
  rssKb : Nat := 0
  threads : Int := 0
  uptimeSeconds : ℚ := 0
  domainId : String := "0"
  isRos : Bool := false
  nodeName : String := ""
  nameSpace : String := "/"
  executable : String := ""
  workspaceOrigin : String := ""
  packageName : String := ""
  launchSource : String := ""
  commandLine : String := ""
  lastSeenTick : Int := 0

/-- Embedding of ProcessManager::ProcHeavy (environ omitted as opaque). -/
structure ProcHeavy where
  cmdline : String := ""
  cgroup : String := ""
  openFdCount : Nat := 0
  threadCount : Int := 0

/-- Inputs of one refreshIncremental tick. rrFuel bounds the round-robin
while loop (the source loop is unbounded; every property below is proven
for every fuel). heavyCandidates is the iteration sequence over the QSet
union of the top-20-by-CPU and top-20-by-RSS pid heaps; QSet iteration
order is unspecified, so the properties are proven for every candidate
sequence, which subsumes the source's particular choice (prefetch re-checks
pid-index membership itself). -/
structure TickInput where
  totalJiffies : Nat := 0
  memTotalKb : Nat := 0
  uptimeSeconds : ℚ := 0
  clkTck : Int := 100
  nCpus : Int := 1
  procs : List ProcEntry := []
  deep : Bool := false
  rrFuel : Nat := 0
  heavyCandidates : List Int := []

/-- Mutable state of ProcessManager across ticks. -/
structure SamplerState where
  previousProcJiffies : List (Int × Nat)
  previousTotalJiffies : Nat
  firstCpuSample : Bool
  memTotalKb : Nat
  clockTicks : Int
  cpuCores : Int
  pidIndex : List (Int × ProcLite)
  rrPids : List Int
  rrCursor : Nat
  tickCounter : Int
  updateBudget : Nat
  heavyCache : List (Int × ProcHeavy)
  heavyLru : List Int
  tickTotalJiffies : Nat
  tickUptimeSeconds : ℚ

/-- Member-initializer state of ProcessManager. -/
def initState : SamplerState :=
  { previousProcJiffies := []
    previousTotalJiffies := 0
    firstCpuSample := true
    memTotalKb := 0
    clockTicks := 100
    cpuCores := 1
    pidIndex := []
    rrPids := []
    rrCursor := 0
    tickCounter := 0
    updateBudget := 260
    heavyCache := []
    heavyLru := []
    tickTotalJiffies := 0
    tickUptimeSeconds := 0 }

/-- Member initializer minBudget_ = 60. -/
def minBudget : Nat := 60

/-- Member initializer maxBudget_ = 900. -/
def maxBudget : Nat := 900

/-- Member initializer maxHeavyCacheEntries_ = 256. -/
def maxHeavyCacheEntries : Nat := 256

/-- Lookup of a pid's /proc row in the tick model (readFile of
/proc/pid/stat etc.). -/
def findEntry (t : TickInput) (pid : Int) : Option ProcEntry :=
  t.procs.find? (fun e => e.pid == pid)

/-- The CPU-percentage computation of collectLiteForPid: zero on the very
first pass, with no previous per-pid jiffy sample, or with a non-positive
total delta; otherwise the jiffy-delta percentage clamped below at zero.
Exact rational arithmetic in place of double arithmetic; jiffy deltas are
qulonglong subtractions. -/
def cpuPercentOf (st : SamplerState) (pid : Int) (e : ProcEntry) : ℚ :=
  let procJiffies := u64 (e.utime + e.stime)
  let deltaTotal := u64sub st.tickTotalJiffies st.previousTotalJiffies
  if st.firstCpuSample = false ∧ 0 < deltaTotal
      ∧ (mfind st.previousProcJiffies pid).isSome then
    let deltaProc :=
      u64sub procJiffies ((mfind st.previousProcJiffies pid).getD 0)
    let c : ℚ := (100 * (deltaProc : ℚ) * (st.cpuCores : ℚ))
      / (deltaTotal : ℚ)
    if c < 0 then 0 else c
  else 0

/-- The ProcLite record collectLiteForPid writes for a pid whose stat
parsed: the existing record (default-constructed when absent) updated with
the stat fields, the CPU percentage, the deep-inspection fields (cleared
when deep inspection is off) and the current tick stamp. -/
def liteRecordOf (t : TickInput) (st : SamplerState) (pid : Int)
    (e : ProcEntry) : ProcLite :=
  let rec0 : ProcLite := (mfind st.pidIndex pid).getD {}
  let rec1 : ProcLite :=
    { rec0 with
      pid := pid
      name := e.comm.take 64
      state := e.state
      ppid := e.ppid
      threads := e.threads
      cpuPercent := cpuPercentOf st pid e
      rssKb := e.vmRssKb
      uptimeSeconds := st.tickUptimeSeconds
        - (e.starttimeTicks : ℚ) / (st.clockTicks : ℚ) }
  let rec2 : ProcLite :=
    if t.deep then
      { rec1 with
        commandLine := e.cmdline.take 320
        executable := e.exe
        domainId := e.envDomainId
        isRos := e.rosClassified
        nodeName := e.nodeName
        nameSpace := e.nameSpace
        workspaceOrigin := e.workspaceOrigin
        packageName := e.packageName
        launchSource := e.launchSource }
    else
      { rec1 with
        commandLine := ""
        executable := ""
        domainId := "0"
        isRos := false
        nodeName := ""
        nameSpace := "/"
        workspaceOrigin := ""
        packageName := ""
        launchSource := "" }
  { rec2 with lastSeenTick := st.tickCounter }

/-- The body of collectLiteForPid once the pid's /proc row is at hand: fail
on an unparsable stat, otherwise store the new jiffy sample and the updated
record. -/
def collectLiteEntry (t : TickInput) (pid : Int) (st : SamplerState)
    (e : ProcEntry) : Bool × SamplerState :=
  if e.statOk = false then (false, st)
  else
    (true,
     { st with
       previousProcJiffies :=
         minsert st.previousProcJiffies pid (u64 (e.utime + e.stime))
       pidIndex := minsert st.pidIndex pid (liteRecordOf t st pid e) })

/-- Embedding of ProcessManager::collectLiteForPid. Returns the success
flag and the updated state; a missing or unparsable /proc row is the silent
skip. -/
def collectLiteForPid (t : TickInput) (pid : Int) (st : SamplerState) :
    Bool × SamplerState :=
  match findEntry t pid with
  | none => (false, st)
  | some e => collectLiteEntry t pid st e

/-- One pid of the /proc-listing loop of refreshIncremental: insert the pid
(stamping last_seen_tick) and append it to the round-robin ring when new. -/
def scanStep (acc : SamplerState) (pid : Int) : SamplerState :=
  let isNewPid := !(mcontains acc.pidIndex pid)
  let rec0 : ProcLite := (mfind acc.pidIndex pid).getD {}
  let rec1 : ProcLite :=
    { rec0 with
      pid := pid
      lastSeenTick := acc.tickCounter }
  { acc with
    pidIndex := minsert acc.pidIndex pid rec1
    rrPids := if isNewPid then acc.rrPids ++ [pid] else acc.rrPids }

/-- The /proc-listing loop of refreshIncremental. -/
def scanPhase (pids : List Int) (st : SamplerState) : SamplerState :=
  pids.foldl scanStep st

/-- The round-robin update loop of refreshIncremental (wrap the cursor,
skip pids no longer indexed, count successful collects against the budget).
The source while loop has no intrinsic bound; fuel truncates it, and every
claim is proven for every fuel. Returns (updated, state). -/
def rrLoop (t : TickInput) : Nat → Nat → SamplerState → Nat × SamplerState
  | 0, updated, st => (updated, st)
  | fuel + 1, updated, st =>
    if updated < st.updateBudget ∧ 0 < st.rrPids.length then
      let cursor := if st.rrCursor ≥ st.rrPids.length then 0 else st.rrCursor
      let pid := st.rrPids.getD cursor 0
      let st1 := { st with rrCursor := cursor + 1 }
      if (mfind st1.pidIndex pid).isSome then
        let step := collectLiteForPid t pid st1
        rrLoop t fuel (if step.1 then updated + 1 else updated) step.2
      else
        rrLoop t fuel updated st1
    else (updated, st)

/-- The dead-pid collection of the purge phase: keys of index records whose
last_seen_tick lags the current tick. -/
def deadPids (st : SamplerState) : List Int :=
  (st.pidIndex.filter
    (fun p => decide (p.2.lastSeenTick ≠ st.tickCounter))).map (·.1)

/-- The purge phase of refreshIncremental: collect the pids whose
last_seen_tick lags the current tick, drop them from the pid index, the
previous-jiffies map and the heavy cache, then compact the round-robin
ring. -/
def purgePhase (st : SamplerState) : SamplerState :=
  let st1 := (deadPids st).foldl
    (fun acc pid =>
      { acc with
        pidIndex := mremove acc.pidIndex pid
        previousProcJiffies := mremove acc.previousProcJiffies pid
        heavyCache := mremove acc.heavyCache pid })
    st
  let rrPids := st1.rrPids.filter (fun pid => mcontains st1.pidIndex pid)
  let rrCursor := if st1.rrCursor ≥ rrPids.length then 0 else st1.rrCursor
  { st1 with
    rrPids := rrPids
    rrCursor := rrCursor }

/-- Embedding of ProcessManager::fetchHeavyDetails (reads of the pid's
/proc files; all reads degrade to defaults when the pid is gone). -/
def fetchHeavyDetails (t : TickInput) (pid : Int) : ProcHeavy :=
  match findEntry t pid with
  | none => {}
  | some e =>
    { cmdline := e.cmdline
      cgroup := e.cgroup.take 2048
      openFdCount := e.openFdCount
      threadCount := e.threads }

/-- Embedding of ProcessManager::evictHeavyCacheIfNeeded: dequeue LRU
victims while the cache exceeds its cap. -/
def evictLoop (lru : List Int) (cache : List (Int × ProcHeavy)) :
    List Int × List (Int × ProcHeavy) :=
  if cache.length > maxHeavyCacheEntries then
    match lru with
    | [] => (lru, cache)
    | victim :: rest => evictLoop rest (mremove cache victim)
  else (lru, cache)
termination_by lru.length
decreasing_by simp

/-- Embedding of ProcessManager::touchHeavyCache. -/
def touchHeavyCache (pid : Int) (heavy : ProcHeavy) (st : SamplerState) :
    SamplerState :=
  let out := evictLoop (st.heavyLru ++ [pid]) (minsert st.heavyCache pid heavy)
  { st with
    heavyCache := out.2
    heavyLru := out.1 }

/-- Embedding of ProcessManager::prefetchHeavyForTopK's loop body over the
candidate pid sequence with the prefetch budget. -/
def prefetchGo (t : TickInput) (budget : Nat) :
    List Int → Nat → SamplerState → SamplerState
  | [], _, st => st
  | pid :: rest, used, st =>
    if used ≥ budget then st
    else if mcontains st.heavyCache pid || !(mcontains st.pidIndex pid) then
      prefetchGo t budget rest used st
    else
      prefetchGo t budget rest (used + 1)
        (touchHeavyCache pid (fetchHeavyDetails t pid) st)

/-- The adaptive-budget step at the tail of refreshIncremental: shrink the
budget by 15 percent (clamped at 60) when the clock stalled or less than
half the budget was spent, else grow it by 12 (clamped at 900). The double
multiply-and-truncate is the integer computation budget * 85 / 100. -/
def budgetStep (deltaTotal : Int) (updated : Nat) (st : SamplerState) :
    SamplerState :=
  if deltaTotal ≤ 0 ∨ updated < st.updateBudget / 2 then
    { st with updateBudget := max minBudget (st.updateBudget * 85 / 100) }
  else
    { st with updateBudget := min maxBudget (st.updateBudget + 12) }

/-- Embedding of ProcessManager::refreshIncremental: one full sampler tick.
listProcPids is the pid column of the tick's /proc model; the heavy
prefetch candidates are the tick input's candidate sequence (see
TickInput). -/
def refreshIncremental (t : TickInput) (st : SamplerState) : SamplerState :=
  let st := { st with tickCounter := st.tickCounter + 1 }
  let st :=
    { st with
      clockTicks := if st.clockTicks ≤ 0 then t.clkTck else st.clockTicks
      cpuCores := if st.cpuCores ≤ 0 then max 1 t.nCpus else st.cpuCores }
  let currentTotalJiffies := u64 t.totalJiffies
  let st :=
    { st with
      memTotalKb := t.memTotalKb
      tickTotalJiffies := currentTotalJiffies
      tickUptimeSeconds := t.uptimeSeconds }
  let st := scanPhase (t.procs.map (·.pid)) st
  let out := rrLoop t t.rrFuel 0 st
  let updated := out.1
  let st := purgePhase out.2
  let st := prefetchGo t 4 t.heavyCandidates 0 st
  let deltaTotal := i64ofU64 (u64sub currentTotalJiffies st.previousTotalJiffies)
  let st :=
    { st with
      previousTotalJiffies := currentTotalJiffies
      firstCpuSample := false }
  budgetStep deltaTotal updated st

/-- A run of sampler ticks from the initial state. -/
def runTicks (ticks : List TickInput) : SamplerState :=
  ticks.foldl (fun st t => refreshIncremental t st) initState

/-- Verification fixture: one concrete /proc row. -/
def entryW : ProcEntry :=
  { pid := 1
    statOk := true
    comm := "talker"
    state := "S"
    ppid := 0
    utime := 10
    stime := 5
    threads := 2
    vmRssKb := 100 }

/-- Verification fixture: a concrete tick containing entryW, with one unit
of round-robin fuel. -/
def tickW : TickInput :=
  { procs := [entryW]
    rrFuel := 1 }

/-- Verification fixture: a concrete sampler state with an earlier jiffy
sample for pid 1. -/
def stateW : SamplerState :=
  { initState with
    tickTotalJiffies := 200
    previousTotalJiffies := 100
    firstCpuSample := false
    previousProcJiffies := [(1, 5)] }

end ProcessManager

namespace ProcessManager

/-- The pid column of a tick's /proc listing (listProcPids). -/
def pidsOf (t : TickInput) : List Int := t.procs.map (·.pid)

/-- The pid has an index record stamped with tick c. -/
def HasTick (st : SamplerState) (q c : Int) : Prop :=
  ∃ r, mfind st.pidIndex q = some r ∧ r.lastSeenTick = c

/-- The cross-tick invariant of the sampler: duplicate-free index keys,
stamps never ahead of the tick counter, and shadow maps (previous jiffies,
heavy cache) keyed only by live pids. -/
def SamplerInv (st : SamplerState) : Prop :=
  (mkeys st.pidIndex).Nodup
  ∧ (∀ p r, mfind st.pidIndex p = some r → r.lastSeenTick ≤ st.tickCounter)
  ∧ (∀ p, p ∈ mkeys st.previousProcJiffies → p ∈ mkeys st.pidIndex)
  ∧ (∀ p, p ∈ mkeys st.heavyCache → p ∈ mkeys st.pidIndex)

theorem samplerInv_init : SamplerInv initState := by
  refine ⟨List.nodup_nil, ?_, ?_, ?_⟩ <;> intro p <;> simp [initState, mkeys]

theorem mfind_scanStep_pidIndex (st : SamplerState) (pid q : Int) :
    mfind (scanStep st pid).pidIndex q
      = if q = pid then
          some { (mfind st.pidIndex pid).getD {} with
                 pid := pid
                 lastSeenTick := st.tickCounter }
        else mfind st.pidIndex q := by
  simp [scanStep, mfind_minsert]

theorem scanStep_const (st : SamplerState) (pid : Int) :
    (scanStep st pid).previousProcJiffies = st.previousProcJiffies
    ∧ (scanStep st pid).heavyCache = st.heavyCache
    ∧ (scanStep st pid).tickCounter = st.tickCounter := ⟨rfl, rfl, rfl⟩

theorem scanStep_hasTick {st : SamplerState} {pid q c : Int}
    (h : HasTick st q c) (hc : st.tickCounter = c) :
    HasTick (scanStep st pid) q c := by
  rcases h with ⟨r, hr, hrt⟩
  by_cases hq : q = pid
  · subst hq
    exact ⟨_, by rw [mfind_scanStep_pidIndex, if_pos rfl], hc⟩
  · exact ⟨r, by rw [mfind_scanStep_pidIndex, if_neg hq]; exact hr, hrt⟩

theorem scanStep_new_hasTick (st : SamplerState) (pid : Int) :
    HasTick (scanStep st pid) pid st.tickCounter :=
  ⟨_, by rw [mfind_scanStep_pidIndex, if_pos rfl], rfl⟩

theorem scanStep_origin {st : SamplerState} {pid q : Int} {r : ProcLite}
    (h : mfind (scanStep st pid).pidIndex q = some r) :
    mfind st.pidIndex q = some r ∨ (q = pid ∧ r.lastSeenTick = st.tickCounter) := by
  rw [mfind_scanStep_pidIndex] at h
  by_cases hq : q = pid
  · rw [if_pos hq] at h
    right
    refine ⟨hq, ?_⟩
    have := Option.some.inj h
    rw [← this]
  · rw [if_neg hq] at h
    exact Or.inl h

theorem scanStep_keys (st : SamplerState) (pid q : Int) :
    q ∈ mkeys (scanStep st pid).pidIndex ↔ q = pid ∨ q ∈ mkeys st.pidIndex := by
  simp [scanStep, mem_mkeys_minsert]

theorem scanStep_nodup {st : SamplerState} (pid : Int)
    (h : (mkeys st.pidIndex).Nodup) :
    (mkeys (scanStep st pid).pidIndex).Nodup :=
  nodup_mkeys_minsert h

theorem scanPhase_cons (p : Int) (ps : List Int) (st : SamplerState) :
    scanPhase (p :: ps) st = scanPhase ps (scanStep st p) := rfl

theorem scanPhase_const (pids : List Int) (st : SamplerState) :
    (scanPhase pids st).previousProcJiffies = st.previousProcJiffies
    ∧ (scanPhase pids st).heavyCache = st.heavyCache
    ∧ (scanPhase pids st).tickCounter = st.tickCounter := by
  induction pids generalizing st with
  | nil => exact ⟨rfl, rfl, rfl⟩
  | cons p ps ih =>
    rw [scanPhase_cons]
    exact ih (scanStep st p)

theorem scanPhase_hasTick {pids : List Int} {st : SamplerState} {q c : Int}
    (h : HasTick st q c) (hc : st.tickCounter = c) :
    HasTick (scanPhase pids st) q c := by
  induction pids generalizing st with
  | nil => exact h
  | cons p ps ih =>
    rw [scanPhase_cons]
    exact ih (scanStep_hasTick h hc) ((scanStep_const st p).2.2.trans hc)

theorem scanPhase_mem_hasTick {pids : List Int} {st : SamplerState} {q : Int}
    (h : q ∈ pids) : HasTick (scanPhase pids st) q st.tickCounter := by
  induction pids generalizing st with
  | nil => simp at h
  | cons p ps ih =>
    rw [scanPhase_cons]
    rcases List.mem_cons.mp h with rfl | hps
    · exact scanPhase_hasTick (scanStep_new_hasTick st q)
        (scanStep_const st q).2.2
    · exact (scanStep_const st p).2.2 ▸ ih hps

theorem scanPhase_origin {pids : List Int} {st : SamplerState} {q : Int}
    {r : ProcLite} (h : mfind (scanPhase pids st).pidIndex q = some r) :
    (q ∈ pids ∧ r.lastSeenTick = st.tickCounter)
      ∨ mfind st.pidIndex q = some r := by
  induction pids generalizing st with
  | nil => exact Or.inr h
  | cons p ps ih =>
    rw [scanPhase_cons] at h
    rcases ih h with ⟨hmem, htick⟩ | hfound
    · exact Or.inl ⟨List.mem_cons_of_mem _ hmem,
        htick.trans (scanStep_const st p).2.2⟩
    · rcases scanStep_origin hfound with hold | ⟨rfl, htick⟩
      · exact Or.inr hold
      · exact Or.inl ⟨List.mem_cons_self _ _, htick⟩

theorem scanPhase_keys (pids : List Int) (st : SamplerState) (q : Int) :
    q ∈ mkeys (scanPhase pids st).pidIndex
      ↔ q ∈ pids ∨ q ∈ mkeys st.pidIndex := by
  induction pids generalizing st with
  | nil => simp [scanPhase]
  | cons p ps ih =>
    rw [scanPhase_cons, ih, scanStep_keys, List.mem_cons]
    tauto

theorem scanPhase_nodup {pids : List Int} {st : SamplerState}
    (h : (mkeys st.pidIndex).Nodup) :
    (mkeys (scanPhase pids st).pidIndex).Nodup := by
  induction pids generalizing st with
  | nil => exact h
  | cons p ps ih =>
    rw [scanPhase_cons]
    exact ih (scanStep_nodup p h)

theorem findEntry_mem {t : TickInput} {pid : Int} {e : ProcEntry}
    (h : findEntry t pid = some e) : pid ∈ pidsOf t := by
  unfold findEntry at h
  have hmem : e ∈ t.procs := List.mem_of_find?_eq_some h
  have hpid := List.find?_some h
  exact List.mem_map.mpr ⟨e, hmem, by simpa using hpid⟩

theorem liteRecordOf_lastSeenTick (t : TickInput) (st : SamplerState)
    (pid : Int) (e : ProcEntry) :
    (liteRecordOf t st pid e).lastSeenTick = st.tickCounter := by
  by_cases hd : t.deep = true <;> simp [liteRecordOf, hd]

theorem collectLite_cases (t : TickInput) (pid : Int) (s : SamplerState) :
    (collectLiteForPid t pid s).2 = s
    ∨ ∃ e, findEntry t pid = some e ∧ e.statOk = true
        ∧ (collectLiteForPid t pid s).2
          = { s with
              previousProcJiffies :=
                minsert s.previousProcJiffies pid (u64 (e.utime + e.stime))
              pidIndex := minsert s.pidIndex pid (liteRecordOf t s pid e) } := by
  rcases hf : findEntry t pid with _ | e
  · exact Or.inl (by simp [collectLiteForPid, hf])
  · by_cases hok : e.statOk = false
    · exact Or.inl (by simp [collectLiteForPid, hf, collectLiteEntry, hok])
    · exact Or.inr ⟨e, rfl, by simpa using hok,
        by simp [collectLiteForPid, hf, collectLiteEntry, hok]⟩

theorem collectLite_const (t : TickInput) (pid : Int) (s : SamplerState) :
    (collectLiteForPid t pid s).2.heavyCache = s.heavyCache
    ∧ (collectLiteForPid t pid s).2.tickCounter = s.tickCounter
    ∧ (collectLiteForPid t pid s).2.rrPids = s.rrPids
    ∧ (collectLiteForPid t pid s).2.updateBudget = s.updateBudget := by
  rcases collectLite_cases t pid s with h | ⟨e, _, _, h⟩ <;>
    rw [h] <;> exact ⟨rfl, rfl, rfl, rfl⟩

/-- Relation between the state entering the round-robin loop and any state
it can produce: the loop keeps the key set, only restamps records of pids
present in this tick's /proc, never unstamps a current-tick record, and
grows the previous-jiffies map only with freshly stamped pids. -/
structure RRPost (t : TickInput) (s0 s : SamplerState) : Prop where
  tick : s.tickCounter = s0.tickCounter
  heavy : s.heavyCache = s0.heavyCache
  keys : ∀ q, q ∈ mkeys s.pidIndex ↔ q ∈ mkeys s0.pidIndex
  origin : ∀ q r, mfind s.pidIndex q = some r →
    mfind s0.pidIndex q = some r
      ∨ (q ∈ pidsOf t ∧ r.lastSeenTick = s0.tickCounter)
  stable : ∀ q c, HasTick s0 q c → s0.tickCounter = c → HasTick s q c
  prev : ∀ q, q ∈ mkeys s.previousProcJiffies →
    q ∈ mkeys s0.previousProcJiffies ∨ HasTick s q s0.tickCounter
  nodup : (mkeys s0.pidIndex).Nodup → (mkeys s.pidIndex).Nodup

theorem RRPost.rfl_ (t : TickInput) (s : SamplerState) : RRPost t s s where
  tick := rfl
  heavy := rfl
  keys := fun _ => Iff.rfl
  origin := fun _ _ h => Or.inl h
  stable := fun _ _ h _ => h
  prev := fun _ h => Or.inl h
  nodup := fun h => h

theorem RRPost.comp {t : TickInput} {s0 s1 s2 : SamplerState}
    (h01 : RRPost t s0 s1) (h12 : RRPost t s1 s2) : RRPost t s0 s2 where
  tick := h12.tick.trans h01.tick
  heavy := h12.heavy.trans h01.heavy
  keys := fun q => (h12.keys q).trans (h01.keys q)
  origin := fun q r h => by
    rcases h12.origin q r h with h1 | ⟨hm, ht⟩
    · exact h01.origin q r h1
    · exact Or.inr ⟨hm, ht.trans h01.tick⟩
  stable := fun q c h hc =>
    h12.stable q c (h01.stable q c h hc) (h01.tick.trans hc)
  prev := fun q h => by
    rcases h12.prev q h with h1 | ht
    · rcases h01.prev q h1 with h0 | ht0
      · exact Or.inl h0
      · exact Or.inr (h12.stable q s0.tickCounter ht0 h01.tick)
    · exact Or.inr (h01.tick ▸ ht)
  nodup := fun h => h12.nodup (h01.nodup h)

theorem RRPost.cursor (t : TickInput) (s : SamplerState) (c : Nat) :
    RRPost t s { s with rrCursor := c } where
  tick := rfl
  heavy := rfl
  keys := fun _ => Iff.rfl
  origin := fun _ _ h => Or.inl h
  stable := fun _ _ h _ => h
  prev := fun _ h => Or.inl h
  nodup := fun h => h

theorem RRPost.collect (t : TickInput) (pid : Int) (s : SamplerState)
    (hmem : (mfind s.pidIndex pid).isSome = true) :
    RRPost t s (collectLiteForPid t pid s).2 := by
  rcases collectLite_cases t pid s with h | ⟨e, hf, _, h⟩
  · rw [h]
    exact RRPost.rfl_ t s
  · rw [h]
    refine ⟨rfl, rfl, ?_, ?_, ?_, ?_, ?_⟩
    · intro q
      rw [mem_mkeys_minsert]
      constructor
      · rintro (rfl | hq)
        · exact mem_mkeys_iff_mfind.mpr hmem
        · exact hq
      · exact Or.inr
    · intro q r hq
      rw [mfind_minsert] at hq
      by_cases hqp : q = pid
      · rw [if_pos hqp] at hq
        right
        refine ⟨hqp ▸ findEntry_mem hf, ?_⟩
        rw [← Option.some.inj hq, liteRecordOf_lastSeenTick]
      · rw [if_neg hqp] at hq
        exact Or.inl hq
    · intro q c hq hc
      rcases hq with ⟨r, hr, hrt⟩
      by_cases hqp : q = pid
      · subst hqp
        exact ⟨liteRecordOf t s q e, by rw [mfind_minsert, if_pos rfl],
          (liteRecordOf_lastSeenTick t s q e).trans hc⟩
      · exact ⟨r, by rw [mfind_minsert, if_neg hqp]; exact hr, hrt⟩
    · intro q hq
      rw [mem_mkeys_minsert] at hq
      rcases hq with rfl | hq
      · exact Or.inr ⟨liteRecordOf t s q e,
          by rw [mfind_minsert, if_pos rfl], liteRecordOf_lastSeenTick t s q e⟩
      · exact Or.inl hq
    · exact fun h => nodup_mkeys_minsert h

theorem purge_fold_eq (ds : List Int) (st : SamplerState) :
    ds.foldl
      (fun acc pid =>
        { acc with
          pidIndex := mremove acc.pidIndex pid
          previousProcJiffies := mremove acc.previousProcJiffies pid
          heavyCache := mremove acc.heavyCache pid }) st
    = { st with
        pidIndex := ds.foldl mremove st.pidIndex
        previousProcJiffies := ds.foldl mremove st.previousProcJiffies
        heavyCache := ds.foldl mremove st.heavyCache } := by
  induction ds generalizing st with
  | nil => rfl
  | cons d rest ih =>
    simp only [List.foldl_cons]
    rw [ih]

theorem mem_deadPids {st : SamplerState} (hnd : (mkeys st.pidIndex).Nodup)
    (q : Int) :
    q ∈ deadPids st
      ↔ ∃ r, mfind st.pidIndex q = some r
          ∧ r.lastSeenTick ≠ st.tickCounter := by
  constructor
  · intro h
    rcases List.mem_map.mp h with ⟨p, hp, rfl⟩
    rcases List.mem_filter.mp hp with ⟨hmem, hlag⟩
    exact ⟨p.2, mfind_of_mem_nodup hnd hmem, by simpa using hlag⟩
  · rintro ⟨r, hr, hlag⟩
    exact List.mem_map.mpr ⟨(q, r),
      List.mem_filter.mpr ⟨mfind_eq_some_mem hr, by simpa using hlag⟩, rfl⟩

theorem purgePhase_proj (st : SamplerState) :
    (purgePhase st).pidIndex = (deadPids st).foldl mremove st.pidIndex
    ∧ (purgePhase st).previousProcJiffies
      = (deadPids st).foldl mremove st.previousProcJiffies
    ∧ (purgePhase st).heavyCache
      = (deadPids st).foldl mremove st.heavyCache
    ∧ (purgePhase st).tickCounter = st.tickCounter := by
  refine ⟨?_, ?_, ?_, ?_⟩ <;> simp [purgePhase, purge_fold_eq]

theorem purge_mfind {st : SamplerState} (hnd : (mkeys st.pidIndex).Nodup)
    (q : Int) (r : ProcLite) :
    mfind (purgePhase st).pidIndex q = some r
      ↔ mfind st.pidIndex q = some r ∧ r.lastSeenTick = st.tickCounter := by
  rw [(purgePhase_proj st).1]
  by_cases hd : q ∈ deadPids st
  · rw [mfind_foldl_mremove_mem _ _ _ hd]
    rcases (mem_deadPids hnd q).mp hd with ⟨r0, hr0, hlag⟩
    constructor
    · intro h
      exact absurd h (by simp)
    · rintro ⟨hr, ht⟩
      rw [hr0] at hr
      exact absurd ht ((Option.some.inj hr) ▸ hlag)
  · rw [mfind_foldl_mremove_not_mem _ _ _ hd]
    constructor
    · intro h
      refine ⟨h, ?_⟩
      by_contra hne
      exact hd ((mem_deadPids hnd q).mpr ⟨r, h, hne⟩)
    · exact fun h => h.1

theorem purge_prev_keys (st : SamplerState) (q : Int) :
    q ∈ mkeys (purgePhase st).previousProcJiffies
      ↔ q ∈ mkeys st.previousProcJiffies ∧ q ∉ deadPids st := by
  rw [(purgePhase_proj st).2.1]
  by_cases hd : q ∈ deadPids st
  · rw [mem_mkeys_iff_mfind, mfind_foldl_mremove_mem _ _ _ hd]
    simp [hd]
  · rw [mem_mkeys_iff_mfind, mfind_foldl_mremove_not_mem _ _ _ hd,
      ← mem_mkeys_iff_mfind]
    simp [hd]

theorem purge_heavy_keys (st : SamplerState) (q : Int) :
    q ∈ mkeys (purgePhase st).heavyCache
      ↔ q ∈ mkeys st.heavyCache ∧ q ∉ deadPids st := by
  rw [(purgePhase_proj st).2.2.1]
  by_cases hd : q ∈ deadPids st
  · rw [mem_mkeys_iff_mfind, mfind_foldl_mremove_mem _ _ _ hd]
    simp [hd]
  · rw [mem_mkeys_iff_mfind, mfind_foldl_mremove_not_mem _ _ _ hd,
      ← mem_mkeys_iff_mfind]
    simp [hd]

theorem purge_nodup {st : SamplerState} (hnd : (mkeys st.pidIndex).Nodup) :
    (mkeys (purgePhase st).pidIndex).Nodup := by
  rw [(purgePhase_proj st).1]
  exact nodup_mkeys_foldl_mremove _ _ hnd

theorem evictLoop_keys (lru : List Int) (cache : List (Int × ProcHeavy))
    (q : Int) (h : q ∈ mkeys (evictLoop lru cache).2) : q ∈ mkeys cache := by
  induction lru generalizing cache with
  | nil =>
    rw [evictLoop] at h
    by_cases hlen : cache.length > maxHeavyCacheEntries <;> simpa [hlen] using h
  | cons v rest ih =>
    rw [evictLoop] at h
    by_cases hlen : cache.length > maxHeavyCacheEntries
    · rw [if_pos hlen] at h
      exact (mem_mkeys_mremove.mp (ih _ h)).1
    · rw [if_neg hlen] at h
      exact h

theorem touchHeavyCache_proj (pid : Int) (h : ProcHeavy) (st : SamplerState) :
    (touchHeavyCache pid h st).pidIndex = st.pidIndex
    ∧ (touchHeavyCache pid h st).previousProcJiffies = st.previousProcJiffies
    ∧ (touchHeavyCache pid h st).tickCounter = st.tickCounter :=
  ⟨rfl, rfl, rfl⟩

theorem touchHeavyCache_keys (pid : Int) (h : ProcHeavy) (st : SamplerState)
    (q : Int) (hq : q ∈ mkeys (touchHeavyCache pid h st).heavyCache) :
    q = pid ∨ q ∈ mkeys st.heavyCache := by
  have h1 : q ∈ mkeys (minsert st.heavyCache pid h) :=
    evictLoop_keys _ _ q hq
  exact mem_mkeys_minsert.mp h1

theorem prefetchGo_proj (t : TickInput) (b : Nat) (cs : List Int) (u : Nat)
    (st : SamplerState) :
    (prefetchGo t b cs u st).pidIndex = st.pidIndex
    ∧ (prefetchGo t b cs u st).previousProcJiffies = st.previousProcJiffies
    ∧ (prefetchGo t b cs u st).tickCounter = st.tickCounter := by
  induction cs generalizing u st with
  | nil => exact ⟨rfl, rfl, rfl⟩
  | cons pid rest ih =>
    rw [prefetchGo]
    by_cases hu : u ≥ b
    · rw [if_pos hu]
      exact ⟨rfl, rfl, rfl⟩
    · rw [if_neg hu]
      by_cases hskip : (mcontains st.heavyCache pid
          || !(mcontains st.pidIndex pid)) = true
      · rw [if_pos hskip]
        exact ih u st
      · rw [if_neg hskip]
        rcases ih (u + 1) (touchHeavyCache pid (fetchHeavyDetails t pid) st)
          with ⟨h1, h2, h3⟩
        exact ⟨h1.trans (touchHeavyCache_proj _ _ _).1,
          h2.trans (touchHeavyCache_proj _ _ _).2.1,
          h3.trans (touchHeavyCache_proj _ _ _).2.2⟩

theorem prefetchGo_heavy (t : TickInput) (b : Nat) (cs : List Int) (u : Nat)
    (st : SamplerState) (q : Int)
    (hq : q ∈ mkeys (prefetchGo t b cs u st).heavyCache) :
    q ∈ mkeys st.heavyCache ∨ q ∈ mkeys st.pidIndex := by
  induction cs generalizing u st with
  | nil => exact Or.inl hq
  | cons pid rest ih =>
    rw [prefetchGo] at hq
    by_cases hu : u ≥ b
    · rw [if_pos hu] at hq
      exact Or.inl hq
    · rw [if_neg hu] at hq
      by_cases hskip : (mcontains st.heavyCache pid
          || !(mcontains st.pidIndex pid)) = true
      · rw [if_pos hskip] at hq
        exact ih u st hq
      · rw [if_neg hskip] at hq
        have hlive : mcontains st.pidIndex pid = true := by
          by_contra hfalse
          have hb : mcontains st.pidIndex pid = false :=
            Bool.eq_false_iff.mpr hfalse
          exact hskip (by simp [hb])
        rcases ih (u + 1) (touchHeavyCache pid (fetchHeavyDetails t pid) st)
            hq with hheavy | hidx
        · rcases touchHeavyCache_keys _ _ _ _ hheavy with rfl | hold
          · exact Or.inr (mem_mkeys_iff_mfind.mpr hlive)
          · exact Or.inl hold
        · rw [(touchHeavyCache_proj _ _ _).1] at hidx
          exact Or.inr hidx

theorem rrLoop_post (t : TickInput) :
    ∀ (fuel updated : Nat) (st : SamplerState),
      RRPost t st (rrLoop t fuel updated st).2 := by
  intro fuel
  induction fuel with
  | zero => intro updated st; exact RRPost.rfl_ t st
  | succ fuel ih =>
    intro updated st
    rw [rrLoop]
    by_cases hcond : updated < st.updateBudget ∧ 0 < st.rrPids.length
    · rw [if_pos hcond]
      by_cases hmem : (mfind ({ st with rrCursor :=
            (if st.rrCursor ≥ st.rrPids.length then 0 else st.rrCursor)
              + 1 } : SamplerState).pidIndex
          (st.rrPids.getD
            (if st.rrCursor ≥ st.rrPids.length then 0 else st.rrCursor)
            0)).isSome = true
      · simp only [hmem, if_true]
        exact (RRPost.cursor t st _).comp
          ((RRPost.collect t _ _ hmem).comp (ih _ _))
      · simp only [hmem]
        rw [if_neg (by simpa using hmem)]
        exact (RRPost.cursor t st _).comp (ih _ _)
    · rw [if_neg hcond]
      exact RRPost.rfl_ t st

/-- The state after the tick-counter, sysconf and per-tick total updates at
the head of refreshIncremental. -/
def preTickState (t : TickInput) (st : SamplerState) : SamplerState :=
  { st with
    tickCounter := st.tickCounter + 1
    clockTicks := if st.clockTicks ≤ 0 then t.clkTck else st.clockTicks
    cpuCores := if st.cpuCores ≤ 0 then max 1 t.nCpus else st.cpuCores
    memTotalKb := t.memTotalKb
    tickTotalJiffies := u64 t.totalJiffies
    tickUptimeSeconds := t.uptimeSeconds }

theorem refresh_proj (t : TickInput) (st : SamplerState) :
    (refreshIncremental t st).pidIndex
      = (prefetchGo t 4 t.heavyCandidates 0
          (purgePhase (rrLoop t t.rrFuel 0
            (scanPhase (pidsOf t) (preTickState t st))).2)).pidIndex
    ∧ (refreshIncremental t st).previousProcJiffies
      = (prefetchGo t 4 t.heavyCandidates 0
          (purgePhase (rrLoop t t.rrFuel 0
            (scanPhase (pidsOf t) (preTickState t st))).2)).previousProcJiffies
    ∧ (refreshIncremental t st).heavyCache
      = (prefetchGo t 4 t.heavyCandidates 0
          (purgePhase (rrLoop t t.rrFuel 0
            (scanPhase (pidsOf t) (preTickState t st))).2)).heavyCache
    ∧ (refreshIncremental t st).tickCounter
      = (prefetchGo t 4 t.heavyCandidates 0
          (purgePhase (rrLoop t t.rrFuel 0
            (scanPhase (pidsOf t) (preTickState t st))).2)).tickCounter := by
  have hb : ∀ (d : Int) (u : Nat) (s : SamplerState),
      (budgetStep d u s).pidIndex = s.pidIndex
      ∧ (budgetStep d u s).previousProcJiffies = s.previousProcJiffies
      ∧ (budgetStep d u s).heavyCache = s.heavyCache
      ∧ (budgetStep d u s).tickCounter = s.tickCounter := by
    intro d u s
    unfold budgetStep
    split <;> exact ⟨rfl, rfl, rfl, rfl⟩
  refine ⟨?_, ?_, ?_, ?_⟩ <;>
    (simp only [refreshIncremental]
     first
     | rw [(hb _ _ _).1]
     | rw [(hb _ _ _).2.1]
     | rw [(hb _ _ _).2.2.1]
     | rw [(hb _ _ _).2.2.2]) <;>
    rfl

theorem refreshIncremental_spec (t : TickInput) (st : SamplerState)
    (hinv : SamplerInv st) :
    SamplerInv (refreshIncremental t st)
    ∧ ∀ q, (q ∈ mkeys (refreshIncremental t st).pidIndex ↔ q ∈ pidsOf t) := by
  obtain ⟨hnd, hle, hprev, hheavy⟩ := hinv
  obtain ⟨hp1, hp2, hp3, hp4⟩ := refresh_proj t st
  set stA := preTickState t st with hA
  set stB := scanPhase (pidsOf t) stA with hB
  set stC := (rrLoop t t.rrFuel 0 stB).2 with hC
  set stD := purgePhase stC with hD
  set stE := prefetchGo t 4 t.heavyCandidates 0 stD with hE
  have hpost : RRPost t stB stC := rrLoop_post t _ _ _
  have hAidx : stA.pidIndex = st.pidIndex := rfl
  have hAtc : stA.tickCounter = st.tickCounter + 1 := rfl
  have hBtc : stB.tickCounter = stA.tickCounter := (scanPhase_const _ _).2.2
  have hCtc : stC.tickCounter = stA.tickCounter := hpost.tick.trans hBtc
  have hndB : (mkeys stB.pidIndex).Nodup := scanPhase_nodup (hAidx ▸ hnd)
  have hndC : (mkeys stC.pidIndex).Nodup := hpost.nodup hndB
  have hFidx : (refreshIncremental t st).pidIndex = stD.pidIndex :=
    hp1.trans (prefetchGo_proj t 4 t.heavyCandidates 0 stD).1
  have hFprev : (refreshIncremental t st).previousProcJiffies
      = stD.previousProcJiffies :=
    hp2.trans (prefetchGo_proj t 4 t.heavyCandidates 0 stD).2.1
  have hFheavy : (refreshIncremental t st).heavyCache = stE.heavyCache := hp3
  have hFtc : (refreshIncremental t st).tickCounter = stC.tickCounter :=
    hp4.trans ((prefetchGo_proj t 4 t.heavyCandidates 0 stD).2.2.trans
      (purgePhase_proj stC).2.2.2)
  have hlive_of_old : ∀ q, q ∈ mkeys st.pidIndex → q ∉ deadPids stC →
      q ∈ mkeys stD.pidIndex := by
    intro q hq hdead
    have hqB : q ∈ mkeys stB.pidIndex :=
      (scanPhase_keys _ _ _).mpr (Or.inr (hAidx ▸ hq))
    have hqC : q ∈ mkeys stC.pidIndex := (hpost.keys q).mpr hqB
    rcases hfind : mfind stC.pidIndex q with _ | r
    · rw [mem_mkeys_iff_mfind, hfind] at hqC
      simp at hqC
    · have htick : r.lastSeenTick = stC.tickCounter := by
        by_contra hne
        exact hdead ((mem_deadPids hndC q).mpr ⟨r, hfind, hne⟩)
      have : mfind stD.pidIndex q = some r :=
        (purge_mfind hndC q r).mpr ⟨hfind, htick⟩
      rw [mem_mkeys_iff_mfind, this]
      rfl
  have hmemD : ∀ q, q ∈ mkeys stD.pidIndex ↔ q ∈ pidsOf t := by
    intro q
    constructor
    · intro hq
      rcases hfind : mfind stD.pidIndex q with _ | r
      · rw [mem_mkeys_iff_mfind, hfind] at hq
        simp at hq
      · obtain ⟨hCfound, htick⟩ := (purge_mfind hndC q r).mp hfind
        rcases hpost.origin q r hCfound with hBfound | ⟨hm, _⟩
        · rcases scanPhase_origin hBfound with ⟨hm, _⟩ | hAfound
          · exact hm
          · have hle2 := hle q r (hAidx ▸ hAfound)
            rw [hCtc, hAtc] at htick
            omega
        · exact hm
    · intro hq
      have hhtB : HasTick stB q stA.tickCounter := scanPhase_mem_hasTick hq
      have hhtC : HasTick stC q stA.tickCounter :=
        hpost.stable q _ hhtB hBtc
      rcases hhtC with ⟨r, hr, hrt⟩
      have hD2 : mfind stD.pidIndex q = some r :=
        (purge_mfind hndC q r).mpr ⟨hr, hrt.trans hCtc.symm⟩
      rw [mem_mkeys_iff_mfind, hD2]
      rfl
  refine ⟨⟨?_, ?_, ?_, ?_⟩, ?_⟩
  · rw [hFidx]
    exact purge_nodup hndC
  · intro p r hfind
    rw [hFidx] at hfind
    obtain ⟨_, htick⟩ := (purge_mfind hndC p r).mp hfind
    rw [hFtc]
    exact le_of_eq htick
  · intro p hp
    rw [hFprev] at hp
    obtain ⟨hpC, hdead⟩ := (purge_prev_keys stC p).mp hp
    rw [hFidx]
    rcases hpost.prev p hpC with hpB | hht
    · have hBprev : stB.previousProcJiffies = st.previousProcJiffies :=
        (scanPhase_const (pidsOf t) stA).1
      have hpA : p ∈ mkeys st.previousProcJiffies := hBprev ▸ hpB
      exact hlive_of_old p (hprev p hpA) hdead
    · rcases hht with ⟨r, hr, hrt⟩
      have : mfind stD.pidIndex p = some r :=
        (purge_mfind hndC p r).mpr ⟨hr, by rw [hrt, hBtc, ← hCtc]⟩
      rw [mem_mkeys_iff_mfind, this]
      rfl
  · intro p hp
    rw [hFheavy] at hp
    rcases prefetchGo_heavy t 4 t.heavyCandidates 0 stD p hp with hD2 | hD2
    · obtain ⟨hpC, hdead⟩ := (purge_heavy_keys stC p).mp hD2
      rw [hFidx]
      have hBheavy : stC.heavyCache = st.heavyCache :=
        hpost.heavy.trans (scanPhase_const (pidsOf t) stA).2.1
      have hpA : p ∈ mkeys st.heavyCache := hBheavy ▸ hpC
      exact hlive_of_old p (hheavy p hpA) hdead
    · rw [hFidx]
      exact hD2
  · intro q
    rw [hFidx]
    exact hmemD q

theorem samplerInv_runTicks (ticks : List TickInput) :
    SamplerInv (runTicks ticks) := by
  suffices h : ∀ (ts : List TickInput) (s : SamplerState), SamplerInv s →
      SamplerInv (ts.foldl (fun acc tk => refreshIncremental tk acc) s) from
    h ticks initState samplerInv_init
  intro ts
  induction ts with
  | nil => exact fun s hs => hs
  | cons tk rest ih =>
    intro s hs
    exact ih _ (refreshIncremental_spec tk s hs).1

end ProcessManager

namespace ProcessManager

/-- One row of the parent table that ProcessManager::listChildren extracts
from /proc: a numeric /proc entry name parsed as a pid, together with the
ppid field of that entry (second token after the closing paren of its stat
line). -/
structure ProcStatRow where
  pid : Int
  ppid : Int

/-- ProcessManager::listChildren(parentPid): scan the /proc table rows and
return, in table order, the pids whose ppid equals parentPid. -/
def listChildren (tbl : List ProcStatRow) (parentPid : Int) : List Int :=
  (tbl.filter (fun row => decide (row.ppid = parentPid))).map (fun row => row.pid)

/-- The loop body of collectChildrenRecursive for one child: skip it when it
is already in the visited set, otherwise insert it and recurse (the
recursive call is passed in as f). -/
def collectFold (f : Int → List Int → List Int) (acc : List Int) (child : Int) : List Int :=
  if child ∈ acc then acc else f child (child :: acc)

/-- ProcessManager::collectChildrenRecursive(pid, outSet): depth-first
collection of the transitive children of pid into the visited set (the QSet
outSet, modelled as a duplicate-free list; list order models the
unspecified QSet iteration order, and the properties proved below are
order-insensitive). The C++ recursion carries no fuel; it terminates
because every recursive call first inserts a pid that was not yet in
outSet, so the nesting depth never exceeds the number of distinct pids in
the table. The fuel tbl.length + 1 used by killProcessTree dominates that
depth, which collect_closed below makes precise: with this fuel the result
is closed under listChildren, exactly as for the unfueled source
recursion. -/
def collectChildrenRecursive (tbl : List ProcStatRow) : Nat → Int → List Int → List Int
  | 0, _, out => out
  | fuel + 1, pid, out =>
    (listChildren tbl pid).foldl (collectFold (collectChildrenRecursive tbl fuel)) out

/-- ProcessManager::killProcessTree(pid, force): collect the transitive
children of pid, send force ? SIGKILL : SIGTERM to each child and then to
pid itself, and return whether every ::kill call succeeded. killOk gives
the outcome of ::kill per pid, and the second component is the trace of
(pid, signal) deliveries in issue order. -/
def killProcessTree (tbl : List ProcStatRow) (killOk : Int → Bool)
    (pid : Int) (force : Bool) : Bool × List (Int × String) :=
  let children := collectChildrenRecursive tbl (tbl.length + 1) pid []
  let signalName := if force then "SIGKILL" else "SIGTERM"
  let childrenOk := children.foldl (fun ok child => if killOk child then ok else false) true
  let success := if killOk pid then childrenOk else false
  (success, children.map (fun c => (c, signalName)) ++ [(pid, signalName)])

/-- b is a direct child of a according to the /proc table. -/
def childRel (tbl : List ProcStatRow) (a b : Int) : Prop :=
  b ∈ listChildren tbl a

/-- b is a transitive descendant of a (one or more child steps). -/
def Reaches (tbl : List ProcStatRow) : Int → Int → Prop :=
  Relation.TransGen (childRel tbl)

/-- The pid column of the /proc table. -/
def tblPids (tbl : List ProcStatRow) : List Int :=
  tbl.map (fun row => row.pid)

/-- Number of table pids not yet in the visited list: the decreasing
measure that bounds the depth of the DFS. -/
def freePids (tbl : List ProcStatRow) (acc : List Int) : Nat :=
  ((tblPids tbl).dedup.filter (fun p => decide (p ∉ acc))).length

/-- The synthetic /proc tree of the spec scenario: 100 has children 101 and
102, and 101 has child 103. -/
def killTreeTbl : List ProcStatRow :=
  [⟨101, 100⟩, ⟨102, 100⟩, ⟨103, 101⟩]

theorem collect_zero (tbl : List ProcStatRow) (pid : Int) (out : List Int) :
    collectChildrenRecursive tbl 0 pid out = out := rfl

theorem collect_succ (tbl : List ProcStatRow) (fuel : Nat) (pid : Int) (out : List Int) :
    collectChildrenRecursive tbl (fuel + 1) pid out
      = (listChildren tbl pid).foldl (collectFold (collectChildrenRecursive tbl fuel)) out := rfl

theorem listChildren_subset_pids {tbl : List ProcStatRow} {a b : Int}
    (h : b ∈ listChildren tbl a) : b ∈ tblPids tbl := by
  simp only [listChildren, List.mem_map, List.mem_filter] at h
  obtain ⟨row, ⟨hrow, _⟩, hpid⟩ := h
  exact List.mem_map.mpr ⟨row, hrow, hpid⟩

theorem reaches_mem_pids {tbl : List ProcStatRow} {a b : Int}
    (h : Reaches tbl a b) : b ∈ tblPids tbl := by
  induction h with
  | single hstep => exact listChildren_subset_pids hstep
  | tail hpath hstep ih => exact listChildren_subset_pids hstep

theorem foldl_collectFold_subset (f : Int → List Int → List Int)
    (hf : ∀ c a, a ⊆ f c a) :
    ∀ (cs : List Int) (acc : List Int), acc ⊆ cs.foldl (collectFold f) acc := by
  intro cs
  induction cs with
  | nil => exact fun acc => List.Subset.refl acc
  | cons c rest ih =>
    intro acc
    simp only [List.foldl_cons, collectFold]
    by_cases hc : c ∈ acc
    · rw [if_pos hc]
      exact ih acc
    · rw [if_neg hc]
      intro x hx
      exact ih _ (hf c (c :: acc) (List.mem_cons_of_mem c hx))

theorem collect_mono (tbl : List ProcStatRow) :
    ∀ (fuel : Nat) (pid : Int) (out : List Int),
      out ⊆ collectChildrenRecursive tbl fuel pid out := by
  intro fuel
  induction fuel with
  | zero => exact fun pid out => List.Subset.refl out
  | succ fuel ih =>
    intro pid out
    rw [collect_succ]
    exact foldl_collectFold_subset _ (fun c a => ih c a) _ out

theorem foldl_collectFold_sound (tbl : List ProcStatRow) {f : Int → List Int → List Int}
    (hfs : ∀ c a x, x ∈ f c a → x ∈ a ∨ Reaches tbl c x) (pid : Int) :
    ∀ (cs : List Int) (acc : List Int), (∀ c ∈ cs, childRel tbl pid c) →
      ∀ x ∈ cs.foldl (collectFold f) acc, x ∈ acc ∨ Reaches tbl pid x := by
  intro cs
  induction cs with
  | nil => exact fun acc _ x hx => Or.inl hx
  | cons c rest ih =>
    intro acc hcs x hx
    simp only [List.foldl_cons, collectFold] at hx
    by_cases hc : c ∈ acc
    · rw [if_pos hc] at hx
      exact ih acc (fun d hd => hcs d (List.mem_cons_of_mem c hd)) x hx
    · rw [if_neg hc] at hx
      have hcchild : childRel tbl pid c := hcs c (List.mem_cons_self c rest)
      rcases ih _ (fun d hd => hcs d (List.mem_cons_of_mem c hd)) x hx with hin | hre
      · rcases hfs c (c :: acc) x hin with hin2 | hre2
        · rcases List.mem_cons.mp hin2 with rfl | hin3
          · exact Or.inr (Relation.TransGen.single hcchild)
          · exact Or.inl hin3
        · exact Or.inr (Relation.TransGen.head hcchild hre2)
      · exact Or.inr hre

theorem collect_sound (tbl : List ProcStatRow) :
    ∀ (fuel : Nat) (pid : Int) (out : List Int) (x : Int),
      x ∈ collectChildrenRecursive tbl fuel pid out → x ∈ out ∨ Reaches tbl pid x := by
  intro fuel
  induction fuel with
  | zero => exact fun pid out x hx => Or.inl hx
  | succ fuel ih =>
    intro pid out x hx
    rw [collect_succ] at hx
    exact foldl_collectFold_sound tbl (fun c a y hy => ih c a y hy) pid
      (listChildren tbl pid) out (fun c hc => hc) x hx

theorem foldl_collectFold_nodup {f : Int → List Int → List Int}
    (hfn : ∀ c a, a.Nodup → (f c a).Nodup) :
    ∀ (cs : List Int) (acc : List Int), acc.Nodup → (cs.foldl (collectFold f) acc).Nodup := by
  intro cs
  induction cs with
  | nil => exact fun acc h => h
  | cons c rest ih =>
    intro acc hacc
    simp only [List.foldl_cons, collectFold]
    by_cases hc : c ∈ acc
    · rw [if_pos hc]
      exact ih acc hacc
    · rw [if_neg hc]
      exact ih _ (hfn c (c :: acc) (List.nodup_cons.mpr ⟨hc, hacc⟩))

theorem collect_nodup (tbl : List ProcStatRow) :
    ∀ (fuel : Nat) (pid : Int) (out : List Int), out.Nodup →
      (collectChildrenRecursive tbl fuel pid out).Nodup := by
  intro fuel
  induction fuel with
  | zero => exact fun pid out h => h
  | succ fuel ih =>
    intro pid out hout
    rw [collect_succ]
    exact foldl_collectFold_nodup (fun c a ha => ih c a ha) (listChildren tbl pid) out hout

theorem length_filter_mono {l : List Int} {p q : Int → Bool}
    (h : ∀ x, p x = true → q x = true) :
    (l.filter p).length ≤ (l.filter q).length := by
  induction l with
  | nil => exact Nat.le_refl 0
  | cons a rest ih =>
    simp only [List.filter_cons]
    by_cases hpa : p a = true
    · rw [if_pos hpa, if_pos (h a hpa)]
      simp only [List.length_cons]
      exact Nat.succ_le_succ ih
    · rw [if_neg hpa]
      by_cases hqa : q a = true
      · rw [if_pos hqa]
        simp only [List.length_cons]
        exact Nat.le_trans ih (Nat.le_succ _)
      · rw [if_neg hqa]
        exact ih

theorem length_filter_lt {l : List Int} {p q : Int → Bool} {c : Int}
    (hc : c ∈ l) (hpc : p c = false) (hqc : q c = true)
    (h : ∀ x, p x = true → q x = true) :
    (l.filter p).length < (l.filter q).length := by
  induction l with
  | nil => cases hc
  | cons a rest ih =>
    simp only [List.filter_cons]
    by_cases hac : a = c
    · subst hac
      rw [if_neg (by simp [hpc]), if_pos hqc]
      simp only [List.length_cons]
      exact Nat.lt_succ_of_le (length_filter_mono h)
    · have hcr : c ∈ rest := by
        rcases List.mem_cons.mp hc with h1 | h1
        · exact absurd h1.symm hac
        · exact h1
      by_cases hpa : p a = true
      · rw [if_pos hpa, if_pos (h a hpa)]
        simp only [List.length_cons]
        exact Nat.succ_lt_succ (ih hcr)
      · rw [if_neg hpa]
        by_cases hqa : q a = true
        · rw [if_pos hqa]
          simp only [List.length_cons]
          exact Nat.lt_succ_of_lt (ih hcr)
        · rw [if_neg hqa]
          exact ih hcr

theorem freePids_anti (tbl : List ProcStatRow) {s t : List Int} (h : s ⊆ t) :
    freePids tbl t ≤ freePids tbl s := by
  unfold freePids
  refine length_filter_mono (fun x hx => ?_)
  simp only [decide_eq_true_eq] at hx ⊢
  exact fun hmem => hx (h hmem)

theorem freePids_cons_lt (tbl : List ProcStatRow) {c : Int} {acc : List Int}
    (hc : c ∈ tblPids tbl) (hacc : c ∉ acc) :
    freePids tbl (c :: acc) < freePids tbl acc := by
  unfold freePids
  refine length_filter_lt (List.mem_dedup.mpr hc) ?_ ?_ ?_
  · simp
  · simpa using hacc
  · intro x hx
    simp only [decide_eq_true_eq] at hx ⊢
    exact fun hmem => hx (List.mem_cons_of_mem c hmem)

/-- With fuel exceeding the number of still-uncollected table pids, the DFS
behaves like the unfueled source recursion: every direct child of the root
is collected, and the collected set is closed under listChildren away from
the initial visited set. -/
theorem collect_closed (tbl : List ProcStatRow) :
    ∀ (fuel : Nat) (pid : Int) (out : List Int), freePids tbl out < fuel →
      (∀ c ∈ listChildren tbl pid, c ∈ collectChildrenRecursive tbl fuel pid out)
      ∧ (∀ x ∈ collectChildrenRecursive tbl fuel pid out,
          x ∈ out ∨ (x ∈ tblPids tbl
            ∧ ∀ y ∈ listChildren tbl x, y ∈ collectChildrenRecursive tbl fuel pid out)) := by
  intro fuel
  induction fuel with
  | zero => exact fun pid out h => absurd h (Nat.not_lt_zero _)
  | succ fuel ih =>
    intro pid out hfree
    rw [collect_succ]
    suffices haux : ∀ (cs : List Int) (acc : List Int),
        (∀ c ∈ cs, c ∈ listChildren tbl pid) →
        freePids tbl acc ≤ freePids tbl out →
        (∀ x ∈ acc, x ∈ out ∨ (x ∈ tblPids tbl ∧ ∀ y ∈ listChildren tbl x, y ∈ acc)) →
        (∀ c ∈ cs, c ∈ cs.foldl (collectFold (collectChildrenRecursive tbl fuel)) acc)
        ∧ acc ⊆ cs.foldl (collectFold (collectChildrenRecursive tbl fuel)) acc
        ∧ (∀ x ∈ cs.foldl (collectFold (collectChildrenRecursive tbl fuel)) acc,
            x ∈ out ∨ (x ∈ tblPids tbl
              ∧ ∀ y ∈ listChildren tbl x,
                  y ∈ cs.foldl (collectFold (collectChildrenRecursive tbl fuel)) acc)) by
      obtain ⟨h1, h2, h3⟩ := haux (listChildren tbl pid) out (fun c hc => hc)
        (Nat.le_refl _) (fun x hx => Or.inl hx)
      exact ⟨h1, h3⟩
    intro cs
    induction cs with
    | nil =>
      intro acc hcs hmu hCC
      simp only [List.foldl_nil]
      exact ⟨fun c hc => absurd hc (List.not_mem_nil c), List.Subset.refl acc, hCC⟩
    | cons c rest ihc =>
      intro acc hcs hmu hCC
      simp only [List.foldl_cons, collectFold]
      by_cases hc : c ∈ acc
      · rw [if_pos hc]
        obtain ⟨h1, h2, h3⟩ := ihc acc (fun d hd => hcs d (List.mem_cons_of_mem c hd)) hmu hCC
        refine ⟨?_, h2, h3⟩
        intro d hd
        rcases List.mem_cons.mp hd with rfl | hd2
        · exact h2 hc
        · exact h1 d hd2
      · rw [if_neg hc]
        have hcpid : c ∈ tblPids tbl :=
          listChildren_subset_pids (hcs c (List.mem_cons_self c rest))
        have hfree2 : freePids tbl (c :: acc) < fuel := by
          have hlt : freePids tbl (c :: acc) < freePids tbl acc := freePids_cons_lt tbl hcpid hc
          omega
        obtain ⟨hrb, hrc⟩ := ih c (c :: acc) hfree2
        have hmono : c :: acc ⊆ collectChildrenRecursive tbl fuel c (c :: acc) :=
          collect_mono tbl fuel c (c :: acc)
        have hmu2 : freePids tbl (collectChildrenRecursive tbl fuel c (c :: acc))
            ≤ freePids tbl out :=
          Nat.le_trans (freePids_anti tbl hmono)
            (Nat.le_trans (freePids_anti tbl (fun x hx => List.mem_cons_of_mem c hx)) hmu)
        have hCC2 : ∀ x ∈ collectChildrenRecursive tbl fuel c (c :: acc),
            x ∈ out ∨ (x ∈ tblPids tbl
              ∧ ∀ y ∈ listChildren tbl x, y ∈ collectChildrenRecursive tbl fuel c (c :: acc)) := by
          intro x hx
          rcases hrc x hx with hx2 | hx3
          · rcases List.mem_cons.mp hx2 with rfl | hx4
            · exact Or.inr ⟨hcpid, fun y hy => hrb y hy⟩
            · rcases hCC x hx4 with hout | ⟨hxp, hxc⟩
              · exact Or.inl hout
              · exact Or.inr ⟨hxp, fun y hy => hmono (List.mem_cons_of_mem c (hxc y hy))⟩
          · exact Or.inr hx3
        obtain ⟨h1, h2, h3⟩ := ihc (collectChildrenRecursive tbl fuel c (c :: acc))
          (fun d hd => hcs d (List.mem_cons_of_mem c hd)) hmu2 hCC2
        refine ⟨?_, ?_, h3⟩
        · intro d hd
          rcases List.mem_cons.mp hd with rfl | hd2
          · exact h2 (hmono (List.mem_cons_self _ _))
          · exact h1 d hd2
        · exact fun x hx => h2 (hmono (List.mem_cons_of_mem c hx))

theorem collect_complete (tbl : List ProcStatRow) (pid q : Int)
    (h : Reaches tbl pid q) :
    q ∈ collectChildrenRecursive tbl (tbl.length + 1) pid [] := by
  have hfree : freePids tbl [] < tbl.length + 1 := by
    have h1 : ((tblPids tbl).dedup.filter (fun p => decide (p ∉ ([] : List Int)))).length
        ≤ (tblPids tbl).dedup.length := List.length_filter_le _ _
    have h2 : (tblPids tbl).dedup.length ≤ (tblPids tbl).length :=
      (List.dedup_sublist _).length_le
    have h3 : (tblPids tbl).length = tbl.length := by
      simp [tblPids]
    unfold freePids
    omega
  obtain ⟨hb, hcl⟩ := collect_closed tbl (tbl.length + 1) pid [] hfree
  induction h with
  | single hstep => exact hb _ hstep
  | tail hpath hstep ihq =>
    rcases hcl _ ihq with hin | ⟨_, hnext⟩
    · exact absurd hin (List.not_mem_nil _)
    · exact hnext _ hstep

theorem collect_children_iff (tbl : List ProcStatRow) (pid q : Int) :
    q ∈ collectChildrenRecursive tbl (tbl.length + 1) pid [] ↔ Reaches tbl pid q := by
  constructor
  · intro h
    rcases collect_sound tbl _ pid [] q h with h2 | h2
    · exact absurd h2 (List.not_mem_nil q)
    · exact h2
  · exact collect_complete tbl pid q

/-- A cycle would have to pass through a table pid, and every descendant of
a pid is collected; so a table in whose collected descendant sets no pid
contains itself is acyclic. This gives a decidable sufficient condition
for acyclicity. -/
theorem acyclic_of_collect (tbl : List ProcStatRow)
    (h : ∀ q ∈ tblPids tbl, q ∉ collectChildrenRecursive tbl (tbl.length + 1) q []) :
    ∀ q, ¬ Reaches tbl q q :=
  fun q hr => h q (reaches_mem_pids hr) (collect_complete tbl q q hr)

theorem kill_fst (tbl : List ProcStatRow) (killOk : Int → Bool)
    (pid : Int) (force : Bool) :
    (killProcessTree tbl killOk pid force).1
      = (if killOk pid then
          (collectChildrenRecursive tbl (tbl.length + 1) pid []).foldl
            (fun ok child => if killOk child then ok else false) true
        else false) := rfl

theorem kill_snd (tbl : List ProcStatRow) (killOk : Int → Bool)
    (pid : Int) (force : Bool) :
    (killProcessTree tbl killOk pid force).2
      = (collectChildrenRecursive tbl (tbl.length + 1) pid []).map
          (fun c => (c, if force then "SIGKILL" else "SIGTERM"))
        ++ [(pid, if force then "SIGKILL" else "SIGTERM")] := rfl

theorem kill_trace_pids (tbl : List ProcStatRow) (killOk : Int → Bool)
    (pid : Int) (force : Bool) :
    (killProcessTree tbl killOk pid force).2.map (fun s => s.1)
      = collectChildrenRecursive tbl (tbl.length + 1) pid [] ++ [pid] := by
  rw [kill_snd, List.map_append, List.map_map]
  have h1 : ((fun s : Int × String => s.1)
        ∘ fun c : Int => (c, if force then "SIGKILL" else "SIGTERM"))
      = fun c : Int => c := rfl
  rw [h1]
  simp

theorem foldl_killOk_eq_all (killOk : Int → Bool) :
    ∀ (l : List Int) (b : Bool),
      l.foldl (fun ok child => if killOk child then ok else false) b = (b && l.all killOk) := by
  intro l
  induction l with
  | nil =>
    intro b
    simp
  | cons c rest ih =>
    intro b
    simp only [List.foldl_cons, List.all_cons]
    cases hck : killOk c with
    | false =>
      rw [if_neg (by simp), ih false]
      simp
    | true =>
      rw [if_pos rfl, ih b]
      simp

theorem kill_success_iff (tbl : List ProcStatRow) (killOk : Int → Bool)
    (pid : Int) (force : Bool) :
    (killProcessTree tbl killOk pid force).1 = true
      ↔ ∀ s ∈ (killProcessTree tbl killOk pid force).2, killOk s.1 = true := by
  rw [kill_fst, kill_snd, foldl_killOk_eq_all, Bool.true_and]
  constructor
  · intro h s hs
    by_cases hp : killOk pid = true
    · rw [if_pos hp] at h
      rcases List.mem_append.mp hs with hs1 | hs1
      · obtain ⟨c, hc, rfl⟩ := List.mem_map.mp hs1
        exact List.all_eq_true.mp h c hc
      · rw [List.mem_singleton.mp hs1]
        exact hp
    · rw [if_neg hp] at h
      cases h
  · intro h
    have hp : killOk pid = true :=
      h (pid, if force then "SIGKILL" else "SIGTERM")
        (List.mem_append.mpr (Or.inr (List.mem_singleton.mpr rfl)))
    rw [if_pos hp]
    refine List.all_eq_true.mpr (fun c hc => ?_)
    exact h (c, if force then "SIGKILL" else "SIGTERM")
      (List.mem_append.mpr (Or.inl (List.mem_map.mpr ⟨c, hc, rfl⟩)))

theorem nodup_count : ∀ (l : List Int), l.Nodup → ∀ (q : Int),
    l.count q = if q ∈ l then 1 else 0 := by
  intro l
  induction l with
  | nil =>
    intro _ q
    simp
  | cons a rest ih =>
    intro hnd q
    obtain ⟨hna, hrest⟩ := List.nodup_cons.mp hnd
    rw [List.count_cons, ih hrest q]
    by_cases hq : q = a
    · subst hq
      rw [if_neg hna, if_pos (List.mem_cons_self q rest)]
      simp
    · have hq2 : ¬a = q := fun h => hq h.symm
      simp [hq, hq2, List.mem_cons]

end ProcessManager

/-! ## Claim theorems -/

/-- C3: per (target, action) key, once the consecutive-failure counter
reaches the threshold of 4 the circuit opens until now + 30000 ms; while
now is before open_until_ms, execute_remote_action returns immediately with
success=false and a circuit-open error without invoking ssh; once now has
reached open_until_ms an ssh attempt is made again; and a single successful
attempt removes the circuit entry (and with it the failure counter)
entirely. -/
theorem circuit_breaker_behavior (targets : List RemoteMonitor.Target)
    (t : RemoteMonitor.Target) (ssh : Nat → Bool) (now : Int)
    (fs : RemoteMonitor.FileState)
    (parse : String → Option (List RemoteMonitor.QueuedAction))
    (encode : List RemoteMonitor.QueuedAction → String) (openOk : Bool)
    (targetName action domainId queuedUtc : String)
    (circuit : RemoteMonitor.CircuitMap)
    (queue : List RemoteMonitor.QueuedAction) (allowQueueWrite : Bool)
    (hfind : targets.find? (fun x => x.name == targetName) = some t) :
    (∀ (c : RemoteMonitor.CircuitMap) (key : String) (n : Int),
        ((mfind c key).getD ⟨0, 0⟩).failures + 1
            ≥ RemoteMonitor.circuitFailureThreshold →
        mfind (RemoteMonitor.onCircuitFailure c key n) key
          = some ⟨((mfind c key).getD ⟨0, 0⟩).failures + 1,
              n + RemoteMonitor.circuitCooldownMs⟩)
    ∧ (∀ st : RemoteMonitor.CircuitState,
        mfind circuit (t.name ++ "|" ++ action) = some st →
        now < st.openUntilMs →
        RemoteMonitor.executeRemoteActionInternal targets ssh now fs parse
            encode openOk targetName action domainId queuedUtc circuit queue
            allowQueueWrite
          = { success := false, error := some RemoteMonitor.circuitOpenError,
              retryCount := 0, sshInvocations := 0, circuit := circuit,
              queue := queue, fsOps := [] })
    ∧ ((action = "restart_domain" ∨ action = "kill_ros"
          ∨ action = "isolate_domain") →
        RemoteMonitor.isCircuitOpen circuit (t.name ++ "|" ++ action) now
            = false →
        1 ≤ (RemoteMonitor.executeRemoteActionInternal targets ssh now fs
            parse encode openOk targetName action domainId queuedUtc circuit
            queue allowQueueWrite).sshInvocations)
    ∧ ((action = "restart_domain" ∨ action = "kill_ros"
          ∨ action = "isolate_domain") →
        RemoteMonitor.isCircuitOpen circuit (t.name ++ "|" ++ action) now
            = false →
        ssh 0 = true →
        mfind (RemoteMonitor.executeRemoteActionInternal targets ssh now fs
            parse encode openOk targetName action domainId queuedUtc circuit
            queue allowQueueWrite).circuit (t.name ++ "|" ++ action)
          = none) := by
  refine ⟨?_, ?_, ?_, ?_⟩
  · intro c key n hthr
    simp only [RemoteMonitor.onCircuitFailure]
    rw [if_pos hthr]
    simp
  · intro st hst hlt
    have hopen : RemoteMonitor.isCircuitOpen circuit (t.name ++ "|" ++ action) now = true := by
      simp [RemoteMonitor.isCircuitOpen, hst, hlt]
    simp [RemoteMonitor.executeRemoteActionInternal, hfind, hopen]
  · intro hsupp hclosed
    have hact : ¬ (action ≠ "restart_domain" ∧ action ≠ "kill_ros"
        ∧ action ≠ "isolate_domain") := by tauto
    simp only [RemoteMonitor.executeRemoteActionInternal, hfind, hclosed,
      Bool.false_eq_true, if_false, if_neg hact,
      RemoteMonitor.attemptLoop_from_zero]
    by_cases h0 : ssh 0
    · simp [h0]
    · by_cases h1 : ssh 1
      · by_cases hq : allowQueueWrite <;> simp [h0, h1, hq]
      · by_cases h2 : ssh 2 <;> by_cases hq : allowQueueWrite <;>
          simp [h0, h1, h2, hq]
  · intro hsupp hclosed h0
    have hact : ¬ (action ≠ "restart_domain" ∧ action ≠ "kill_ros"
        ∧ action ≠ "isolate_domain") := by tauto
    simp only [RemoteMonitor.executeRemoteActionInternal, hfind, hclosed,
      Bool.false_eq_true, if_false, if_neg hact,
      RemoteMonitor.attemptLoop_from_zero, h0]
    simp [RemoteMonitor.onCircuitSuccess, mfind_mremove]

/-- C3 witness: a concrete target list, circuit map and clock exercising
every hypothesis of circuit_breaker_behavior. -/
theorem circuit_breaker_behavior_witness :
    ([⟨"robotA", "10.0.0.2", "ros", 22, "0", "/opt/ros/humble/setup.bash"⟩]
        : List RemoteMonitor.Target).find?
        (fun x => x.name == "robotA")
      = some ⟨"robotA", "10.0.0.2", "ros", 22, "0", "/opt/ros/humble/setup.bash"⟩
    ∧ ((mfind ([("robotA|restart_domain",
          (⟨4, 40000⟩ : RemoteMonitor.CircuitState))])
          "robotA|restart_domain").getD ⟨0, 0⟩).failures + 1
        ≥ RemoteMonitor.circuitFailureThreshold
    ∧ mfind (RemoteMonitor.onCircuitFailure
          [("robotA|restart_domain", (⟨4, 40000⟩ : RemoteMonitor.CircuitState))]
          "robotA|restart_domain" 10000) "robotA|restart_domain"
        = some ⟨5, 10000 + RemoteMonitor.circuitCooldownMs⟩
    ∧ RemoteMonitor.executeRemoteActionInternal
          [⟨"robotA", "10.0.0.2", "ros", 22, "0", "/opt/ros/humble/setup.bash"⟩]
          (fun _ => false) 10000 .missing (fun _ => none) (fun _ => "[]") true
          "robotA" "restart_domain" "0" "t0"
          [("robotA|restart_domain", ⟨4, 40000⟩)] [] false
        = { success := false, error := some RemoteMonitor.circuitOpenError,
            retryCount := 0, sshInvocations := 0,
            circuit := [("robotA|restart_domain", ⟨4, 40000⟩)],
            queue := [], fsOps := [] }
    ∧ 1 ≤ (RemoteMonitor.executeRemoteActionInternal
          [⟨"robotA", "10.0.0.2", "ros", 22, "0", "/opt/ros/humble/setup.bash"⟩]
          (fun _ => false) 40000 .missing (fun _ => none) (fun _ => "[]") true
          "robotA" "restart_domain" "0" "t0"
          [("robotA|restart_domain", ⟨4, 40000⟩)] [] false).sshInvocations
    ∧ mfind (RemoteMonitor.executeRemoteActionInternal
          [⟨"robotA", "10.0.0.2", "ros", 22, "0", "/opt/ros/humble/setup.bash"⟩]
          (fun _ => true) 40000 .missing (fun _ => none) (fun _ => "[]") true
          "robotA" "restart_domain" "0" "t0"
          [("robotA|restart_domain", ⟨4, 40000⟩)] [] false).circuit
          "robotA|restart_domain"
        = none := by
  have hfind : ([⟨"robotA", "10.0.0.2", "ros", 22, "0",
      "/opt/ros/humble/setup.bash"⟩] : List RemoteMonitor.Target).find?
        (fun x => x.name == "robotA")
      = some ⟨"robotA", "10.0.0.2", "ros", 22, "0",
          "/opt/ros/humble/setup.bash"⟩ := by rfl
  refine ⟨hfind, by simp [RemoteMonitor.circuitFailureThreshold, mfind], ?_, ?_, ?_, ?_⟩
  · exact (circuit_breaker_behavior _ _ (fun _ => false) 10000 .missing
      (fun _ => none) (fun _ => "[]") true "robotA" "restart_domain" "0" "t0"
      [("robotA|restart_domain", ⟨4, 40000⟩)] [] false hfind).1
      [("robotA|restart_domain", ⟨4, 40000⟩)] "robotA|restart_domain" 10000
      (by simp [RemoteMonitor.circuitFailureThreshold, mfind])
  · exact (circuit_breaker_behavior _ _ (fun _ => false) 10000 .missing
      (fun _ => none) (fun _ => "[]") true "robotA" "restart_domain" "0" "t0"
      [("robotA|restart_domain", ⟨4, 40000⟩)] [] false hfind).2.1
      ⟨4, 40000⟩ (by simp [mfind]) (by norm_num)
  · exact (circuit_breaker_behavior _ _ (fun _ => false) 40000 .missing
      (fun _ => none) (fun _ => "[]") true "robotA" "restart_domain" "0" "t0"
      [("robotA|restart_domain", ⟨4, 40000⟩)] [] false hfind).2.2.1
      (Or.inl rfl) (by simp [RemoteMonitor.isCircuitOpen, mfind])
  · exact (circuit_breaker_behavior _ _ (fun _ => true) 40000 .missing
      (fun _ => none) (fun _ => "[]") true "robotA" "restart_domain" "0" "t0"
      [("robotA|restart_domain", ⟨4, 40000⟩)] [] false hfind).2.2.2
      (Or.inl rfl) (by simp [RemoteMonitor.isCircuitOpen, mfind]) rfl

/-- C4 counterexample: persistQueue rewrites the queue file in place
(truncate, write, close) with no rename; a crash right after the truncating
open leaves an empty file that is neither the old nor the new queue
serialization, so a partial write does corrupt the on-disk queue. -/
theorem offline_queue_persist_not_atomic :
    RemoteMonitor.crashAfter (some "[OLD]")
        (RemoteMonitor.persistQueueOps (fun _ => "[NEW]")
          [⟨"robotA", "restart_domain", "0", "t0"⟩] true) 1
      = some ""
    ∧ some "" ≠ some "[OLD]"
    ∧ some "" ≠ some "[NEW]"
    ∧ (RemoteMonitor.persistQueueOps (fun _ => "[NEW]")
          [⟨"robotA", "restart_domain", "0", "t0"⟩] true).all
        (fun op => !op.isRenameOp) = true := by
  refine ⟨rfl, by simp, by simp, rfl⟩

/-- C4 (amended): every enqueue of a failed remote action is followed by an
in-place rewrite of the queue file (truncate, write serialized queue, close;
no temp file and no rename, and a failed open is silently skipped); when the
open succeeds and all operations complete the on-disk file holds exactly the
new queue; on load failure the initially-empty in-memory queue stays empty;
and an enqueue on a queue already holding 600 entries drops the oldest
entry. -/
theorem offline_queue_mutation_behavior (fs : RemoteMonitor.FileState)
    (parse : String → Option (List RemoteMonitor.QueuedAction))
    (encode : List RemoteMonitor.QueuedAction → String)
    (q : List RemoteMonitor.QueuedAction) (a : RemoteMonitor.QueuedAction)
    (c : Option String) (content : String) :
    ((RemoteMonitor.enqueueOfflineAction fs parse encode q a true).2
        = [.truncateOpen,
           .writeContent (encode
             (RemoteMonitor.enqueueOfflineAction fs parse encode q a true).1),
           .closeFile]
      ∧ RemoteMonitor.runFsOps c
          (RemoteMonitor.enqueueOfflineAction fs parse encode q a true).2
        = some (encode
            (RemoteMonitor.enqueueOfflineAction fs parse encode q a true).1))
    ∧ (RemoteMonitor.enqueueOfflineAction fs parse encode q a false).2 = []
    ∧ RemoteMonitor.loadQueue .missing parse [] = []
    ∧ RemoteMonitor.loadQueue .unreadable parse [] = []
    ∧ (parse content = none →
        RemoteMonitor.loadQueue (.readable content) parse [] = [])
    ∧ (q.length = RemoteMonitor.maxOfflineQueue →
        (RemoteMonitor.enqueueOfflineAction fs parse encode q a true).1
          = q.tail ++ [a]) := by
  refine ⟨⟨rfl, rfl⟩, rfl, rfl, rfl, ?_, ?_⟩
  · intro hp
    simp [RemoteMonitor.loadQueue, hp]
  · intro hlen
    have hne : ¬ q.isEmpty := by
      cases q with
      | nil => simp [RemoteMonitor.maxOfflineQueue] at hlen
      | cons x rest => simp
    simp only [RemoteMonitor.enqueueOfflineAction, hne, Bool.false_eq_true,
      if_false]
    have htrim : RemoteMonitor.trimQueue (q ++ [a]) = (q ++ [a]).tail := by
      apply RemoteMonitor.trimQueue_of_one_over
      simp [hlen]
    rw [htrim]
    cases q with
    | nil => simp [RemoteMonitor.maxOfflineQueue] at hlen
    | cons x rest => simp

/-- C4 witness: a concrete 600-entry queue and an unparsable queue file
exercising the hypotheses of offline_queue_mutation_behavior. -/
theorem offline_queue_mutation_behavior_witness :
    (fun _ : String => (none : Option (List RemoteMonitor.QueuedAction)))
        "not json" = none
    ∧ (List.replicate 600
        (⟨"robotA", "kill_ros", "0", "t0"⟩ : RemoteMonitor.QueuedAction)).length
      = RemoteMonitor.maxOfflineQueue
    ∧ RemoteMonitor.loadQueue (.readable "not json") (fun _ => none) [] = []
    ∧ (RemoteMonitor.enqueueOfflineAction .missing (fun _ => none)
          (fun _ => "[Q]")
          (List.replicate 600 ⟨"robotA", "kill_ros", "0", "t0"⟩)
          ⟨"robotB", "restart_domain", "1", "t1"⟩ true).1
      = (List.replicate 600
          (⟨"robotA", "kill_ros", "0", "t0"⟩ : RemoteMonitor.QueuedAction)).tail
        ++ [⟨"robotB", "restart_domain", "1", "t1"⟩] := by
  have hlen : (List.replicate 600
      (⟨"robotA", "kill_ros", "0", "t0"⟩ : RemoteMonitor.QueuedAction)).length
      = RemoteMonitor.maxOfflineQueue := List.length_replicate 600 _
  refine ⟨rfl, hlen, ?_, ?_⟩
  · exact (offline_queue_mutation_behavior .missing (fun _ => none)
      (fun _ => "[Q]") [] ⟨"robotB", "restart_domain", "1", "t1"⟩ none
      "not json").2.2.2.2.1 rfl
  · exact (offline_queue_mutation_behavior .missing (fun _ => none)
      (fun _ => "[Q]") (List.replicate 600 ⟨"robotA", "kill_ros", "0", "t0"⟩)
      ⟨"robotB", "restart_domain", "1", "t1"⟩ none "not json").2.2.2.2.2
      hlen

/-- C10: the record produced by a successful collectLiteForPid carries a
cpu_percent that is never negative: 0 on the very first sampling pass, 0
when the pid has no previous jiffy sample, 0 when the total-jiffies delta
is not positive, and otherwise the delta-based percentage clamped below at
0. -/
theorem cpu_percent_never_negative (t : ProcessManager.TickInput) (pid : Int)
    (st : ProcessManager.SamplerState) (e : ProcessManager.ProcEntry)
    (hfind : ProcessManager.findEntry t pid = some e)
    (hok : e.statOk = true) :
    (mfind (ProcessManager.collectLiteForPid t pid st).2.pidIndex pid).isSome
        = true
    ∧ 0 ≤ ((mfind (ProcessManager.collectLiteForPid t pid st).2.pidIndex
        pid).getD {}).cpuPercent
    ∧ (st.firstCpuSample = true →
        ((mfind (ProcessManager.collectLiteForPid t pid st).2.pidIndex
          pid).getD {}).cpuPercent = 0)
    ∧ (mfind st.previousProcJiffies pid = none →
        ((mfind (ProcessManager.collectLiteForPid t pid st).2.pidIndex
          pid).getD {}).cpuPercent = 0)
    ∧ (ProcessManager.u64sub st.tickTotalJiffies st.previousTotalJiffies = 0 →
        ((mfind (ProcessManager.collectLiteForPid t pid st).2.pidIndex
          pid).getD {}).cpuPercent = 0)
    ∧ (∀ j : Nat, st.firstCpuSample = false →
        mfind st.previousProcJiffies pid = some j →
        0 < ProcessManager.u64sub st.tickTotalJiffies st.previousTotalJiffies →
        ((mfind (ProcessManager.collectLiteForPid t pid st).2.pidIndex
          pid).getD {}).cpuPercent
          = max 0 ((100
              * ((ProcessManager.u64sub
                  (ProcessManager.u64 (e.utime + e.stime)) j : Nat) : ℚ)
              * (st.cpuCores : ℚ))
            / ((ProcessManager.u64sub st.tickTotalJiffies
                st.previousTotalJiffies : Nat) : ℚ))) := by
  have hmf : mfind (ProcessManager.collectLiteForPid t pid st).2.pidIndex pid
      = some (ProcessManager.liteRecordOf t st pid e) := by
    simp [ProcessManager.collectLiteForPid, hfind,
      ProcessManager.collectLiteEntry, hok]
  have hcpu : (ProcessManager.liteRecordOf t st pid e).cpuPercent
      = ProcessManager.cpuPercentOf st pid e := by
    by_cases hd : t.deep = true <;>
      simp [ProcessManager.liteRecordOf, hd]
  rw [hmf]
  simp only [Option.getD_some, Option.isSome_some, true_and, hcpu]
  refine ⟨?_, ?_, ?_, ?_, ?_⟩
  · rw [ProcessManager.cpuPercentOf]
    split
    · dsimp only
      split
      · exact le_refl 0
      · rename_i hc
        exact le_of_not_lt hc
    · exact le_refl 0
  · intro hfirst
    rw [ProcessManager.cpuPercentOf, if_neg (by simp [hfirst])]
  · intro hprev
    rw [ProcessManager.cpuPercentOf, if_neg (by simp [hprev])]
  · intro hdelta
    rw [ProcessManager.cpuPercentOf, if_neg (by simp [hdelta])]
  · intro j hfirst hprev hdelta
    rw [ProcessManager.cpuPercentOf, if_pos ⟨hfirst, hdelta, by simp [hprev]⟩]
    simp only [hprev, Option.getD_some]
    rcases le_or_lt 0 ((100 * ((ProcessManager.u64sub
        (ProcessManager.u64 (e.utime + e.stime)) j : Nat) : ℚ)
        * (st.cpuCores : ℚ))
      / ((ProcessManager.u64sub st.tickTotalJiffies
          st.previousTotalJiffies : Nat) : ℚ)) with hc | hc
    · rw [if_neg (not_lt.mpr hc), max_eq_right hc]
    · rw [if_pos hc, max_eq_left (le_of_lt hc)]

/-- C10 witness: pid 1 of the fixture tick with an earlier jiffy sample of
5 jiffies against a total delta of 100 jiffies. -/
theorem cpu_percent_never_negative_witness :
    ProcessManager.findEntry ProcessManager.tickW 1
        = some ProcessManager.entryW
    ∧ ProcessManager.entryW.statOk = true
    ∧ (mfind (ProcessManager.collectLiteForPid ProcessManager.tickW 1
        ProcessManager.stateW).2.pidIndex 1).isSome = true
    ∧ 0 ≤ ((mfind (ProcessManager.collectLiteForPid ProcessManager.tickW 1
        ProcessManager.stateW).2.pidIndex 1).getD {}).cpuPercent
    ∧ ((mfind (ProcessManager.collectLiteForPid ProcessManager.tickW 1
        ProcessManager.stateW).2.pidIndex 1).getD {}).cpuPercent
      = max 0 ((100
          * ((ProcessManager.u64sub
              (ProcessManager.u64
                (ProcessManager.entryW.utime + ProcessManager.entryW.stime))
              5 : Nat) : ℚ)
          * ((ProcessManager.stateW.cpuCores : Int) : ℚ))
        / ((ProcessManager.u64sub ProcessManager.stateW.tickTotalJiffies
            ProcessManager.stateW.previousTotalJiffies : Nat) : ℚ)) := by
  have h := cpu_percent_never_negative ProcessManager.tickW 1
    ProcessManager.stateW ProcessManager.entryW rfl rfl
  refine ⟨rfl, rfl, h.1, h.2.1, ?_⟩
  exact h.2.2.2.2.2 5 rfl rfl (by
    norm_num [ProcessManager.u64sub, ProcessManager.u64, ProcessManager.U64,
      ProcessManager.stateW, ProcessManager.initState])

/-- C5: after every refresh tick, whatever happened on prior ticks, the pid
index contains exactly the pids listed in the tick's /proc scan (stale
records are purged within the same tick), and the previous-jiffies map and
the heavy-details cache are keyed only by pids of the pid index. -/
theorem pid_index_tracks_proc_scan (prior : List ProcessManager.TickInput)
    (t : ProcessManager.TickInput) :
    (∀ q, q ∈ mkeys (ProcessManager.refreshIncremental t
        (ProcessManager.runTicks prior)).pidIndex
      ↔ q ∈ ProcessManager.pidsOf t)
    ∧ (∀ q, q ∈ mkeys (ProcessManager.refreshIncremental t
          (ProcessManager.runTicks prior)).previousProcJiffies
        → q ∈ mkeys (ProcessManager.refreshIncremental t
            (ProcessManager.runTicks prior)).pidIndex)
    ∧ (∀ q, q ∈ mkeys (ProcessManager.refreshIncremental t
          (ProcessManager.runTicks prior)).heavyCache
        → q ∈ mkeys (ProcessManager.refreshIncremental t
            (ProcessManager.runTicks prior)).pidIndex) := by
  have hspec := ProcessManager.refreshIncremental_spec t
    (ProcessManager.runTicks prior) (ProcessManager.samplerInv_runTicks prior)
  exact ⟨hspec.2, hspec.1.2.2.1, hspec.1.2.2.2⟩

/-- C5 witness: one fixture tick from the initial state; pid 1 is scanned,
collected into the previous-jiffies map, and retained in the index. -/
theorem pid_index_tracks_proc_scan_witness :
    ((1 : Int) ∈ mkeys (ProcessManager.refreshIncremental ProcessManager.tickW
        (ProcessManager.runTicks [])).pidIndex
      ↔ (1 : Int) ∈ ProcessManager.pidsOf ProcessManager.tickW)
    ∧ (1 : Int) ∈ mkeys (ProcessManager.refreshIncremental ProcessManager.tickW
        (ProcessManager.runTicks [])).previousProcJiffies
    ∧ (1 : Int) ∈ mkeys (ProcessManager.refreshIncremental ProcessManager.tickW
        (ProcessManager.runTicks [])).pidIndex := by
  have hmem : (1 : Int) ∈ mkeys (ProcessManager.refreshIncremental
      ProcessManager.tickW (ProcessManager.runTicks [])).previousProcJiffies := by
    decide
  exact ⟨(pid_index_tracks_proc_scan [] ProcessManager.tickW).1 1, hmem,
    (pid_index_tracks_proc_scan [] ProcessManager.tickW).2.1 1 hmem⟩

/-- C1: the fingerprint is the hash of the section-hash map, which excludes
timestamp_utc (the sync-state outcome of a poll is unchanged under any
change of the response timestamp); when the fingerprint differs from the
previous poll's, sync_version increases by exactly 1, consecutive_no_change
resets to 0 and idle_backoff_ms is set to 1000; when it is identical,
sync_version is unchanged, consecutive_no_change increases by 1 and
idle_backoff_ms doubles capped at 12000. -/
theorem sync_fingerprint_transition (hash : JVal → String)
    (st : RuntimeWorker.SyncState) (sec : RuntimeWorker.PollSections)
    (since : Int) (r0 : List (String × JVal)) :
    (∀ (ts1 ts2 preset dom : String) (ver off lim : Int),
        (RuntimeWorker.pollFinalize hash st sec since
            (RuntimeWorker.buildResponse ts1 preset dom sec ver off lim)).1
          = (RuntimeWorker.pollFinalize hash st sec since
              (RuntimeWorker.buildResponse ts2 preset dom sec ver off lim)).1)
    ∧ (RuntimeWorker.fingerprintOf hash sec ≠ st.lastSyncFingerprint →
        (RuntimeWorker.pollFinalize hash st sec since r0).1
          = ⟨st.syncVersion + 1, RuntimeWorker.fingerprintOf hash sec, 0, 1000⟩)
    ∧ (RuntimeWorker.fingerprintOf hash sec = st.lastSyncFingerprint →
        (RuntimeWorker.pollFinalize hash st sec since r0).1
          = ⟨st.syncVersion, st.lastSyncFingerprint,
              st.consecutiveNoChangePolls + 1,
              min RuntimeWorker.maxBackoffMs (st.idleBackoffMs * 2)⟩) := by
  have hfst : ∀ r : List (String × JVal),
      (RuntimeWorker.pollFinalize hash st sec since r).1
        = if RuntimeWorker.fingerprintOf hash sec != st.lastSyncFingerprint then
            ⟨st.syncVersion + 1, RuntimeWorker.fingerprintOf hash sec, 0, 1000⟩
          else
            ⟨st.syncVersion, st.lastSyncFingerprint,
              st.consecutiveNoChangePolls + 1,
              min RuntimeWorker.maxBackoffMs (st.idleBackoffMs * 2)⟩ :=
    fun r => rfl
  refine ⟨fun ts1 ts2 preset dom ver off lim => by rw [hfst, hfst], ?_, ?_⟩
  · intro hne
    have hch : (RuntimeWorker.fingerprintOf hash sec
        != st.lastSyncFingerprint) = true := bne_iff_ne.mpr hne
    rw [hfst, if_pos hch]
  · intro heq
    have hch : (RuntimeWorker.fingerprintOf hash sec
        != st.lastSyncFingerprint) = false := by
      simp [heq]
    rw [hfst, hch]
    simp

/-- C1 witness: a concrete hash function and sync states exercising the
changed and unchanged branches. -/
theorem sync_fingerprint_transition_witness :
    RuntimeWorker.fingerprintOf (fun _ => "h")
        ⟨.null, .null, .null, .null, .null, .null, .null, "", .null, .null,
          .null, .null, .null, .null⟩ ≠ ""
    ∧ (RuntimeWorker.pollFinalize (fun _ => "h") ⟨0, "", 0, 1000⟩
        ⟨.null, .null, .null, .null, .null, .null, .null, "", .null, .null,
          .null, .null, .null, .null⟩ 0 []).1
      = ⟨1, "h", 0, 1000⟩
    ∧ (RuntimeWorker.pollFinalize (fun _ => "h") ⟨5, "h", 2, 4000⟩
        ⟨.null, .null, .null, .null, .null, .null, .null, "", .null, .null,
          .null, .null, .null, .null⟩ 0 []).1
      = ⟨5, "h", 3, 8000⟩ := by
  have hne : RuntimeWorker.fingerprintOf (fun _ => "h")
      ⟨.null, .null, .null, .null, .null, .null, .null, "", .null, .null,
        .null, .null, .null, .null⟩ ≠ "" := by
    simp [RuntimeWorker.fingerprintOf]
  refine ⟨hne, ?_, ?_⟩
  · have h2 := (sync_fingerprint_transition (fun _ => "h") ⟨0, "", 0, 1000⟩
      ⟨.null, .null, .null, .null, .null, .null, .null, "", .null, .null,
        .null, .null, .null, .null⟩ 0 []).2.1 hne
    simpa [RuntimeWorker.fingerprintOf] using h2
  · have h3 := (sync_fingerprint_transition (fun _ => "h") ⟨5, "h", 2, 4000⟩
      ⟨.null, .null, .null, .null, .null, .null, .null, "", .null, .null,
        .null, .null, .null, .null⟩ 0 []).2.2 (by simp [RuntimeWorker.fingerprintOf])
    simpa [RuntimeWorker.maxBackoffMs] using h3

/-- C2: a poll returns a heartbeat (heartbeat_only=true with processes_all,
processes_visible, domain_summaries, domains, graph, tf_nav2, system, logs,
health, advanced, fleet, session, watchdog and node_parameters removed)
exactly when the fingerprint equals the previous poll's and the request's
since_version equals the current sync_version; in every other case the full
snapshot is returned, with all heavy sections present and no heartbeat_only
key. -/
theorem heartbeat_only_condition (hash : JVal → String)
    (st : RuntimeWorker.SyncState) (sec : RuntimeWorker.PollSections)
    (since : Int) (ts preset dom : String) (ver off lim ptf : Int) :
    ((RuntimeWorker.fingerprintOf hash sec = st.lastSyncFingerprint
        ∧ since = st.syncVersion) →
      mfind (RuntimeWorker.pollFinalize hash st sec since
          (RuntimeWorker.pollResponseBase ts preset dom sec ver off lim ptf)).2
          "heartbeat_only"
        = some (.bool true)
      ∧ ∀ k ∈ RuntimeWorker.heavyKeys,
          mfind (RuntimeWorker.pollFinalize hash st sec since
            (RuntimeWorker.pollResponseBase ts preset dom sec ver off lim ptf)).2
            k = none)
    ∧ (¬ (RuntimeWorker.fingerprintOf hash sec = st.lastSyncFingerprint
        ∧ since = st.syncVersion) →
      mfind (RuntimeWorker.pollFinalize hash st sec since
          (RuntimeWorker.pollResponseBase ts preset dom sec ver off lim ptf)).2
          "heartbeat_only"
        = none
      ∧ ∀ k ∈ RuntimeWorker.heavyKeys,
          (mfind (RuntimeWorker.pollFinalize hash st sec since
            (RuntimeWorker.pollResponseBase ts preset dom sec ver off lim ptf)).2
            k).isSome = true) := by
  constructor
  · rintro ⟨hfp, hsince⟩
    have hch : (RuntimeWorker.fingerprintOf hash sec
        != st.lastSyncFingerprint) = false := by simp [hfp]
    have hresp : (RuntimeWorker.pollFinalize hash st sec since
        (RuntimeWorker.pollResponseBase ts preset dom sec ver off lim ptf)).2
        = minsert (RuntimeWorker.heavyKeys.foldl mremove
            (minsert (minsert (minsert (minsert (minsert (minsert
              (RuntimeWorker.pollResponseBase ts preset dom sec ver off lim ptf)
              "sync_version" (.int st.syncVersion))
              "etag" (.str (RuntimeWorker.fingerprintOf hash sec)))
              "changed" (.bool false))
              "changed_sections" (.obj (RuntimeWorker.sectionHashes hash sec)))
              "idle_backoff_ms" (.int (min RuntimeWorker.maxBackoffMs
                (st.idleBackoffMs * 2))))
              "offline_queue_size" (sec.fleet.objGet "offline_queue_size")))
          "heartbeat_only" (.bool true) := by
      simp [RuntimeWorker.pollFinalize, hch, hsince]
    rw [hresp]
    constructor
    · simp
    · intro k hk
      have hkneq : k ≠ "heartbeat_only" := by
        intro heq
        subst heq
        simp [RuntimeWorker.heavyKeys] at hk
      rw [mfind_minsert, if_neg hkneq]
      exact mfind_foldl_mremove_mem _ _ _ hk
  · intro hnot
    by_cases hfp : RuntimeWorker.fingerprintOf hash sec = st.lastSyncFingerprint
    · have hch : (RuntimeWorker.fingerprintOf hash sec
          != st.lastSyncFingerprint) = false := by simp [hfp]
      have hs : ¬ since = st.syncVersion := fun hs => hnot ⟨hfp, hs⟩
      constructor
      · simp [RuntimeWorker.pollFinalize, hch, hs, mfind_minsert,
          RuntimeWorker.pollResponseBase, RuntimeWorker.buildResponse]
      · intro k hk
        simp only [RuntimeWorker.heavyKeys, List.mem_cons,
          List.not_mem_nil, or_false] at hk
        rcases hk with rfl | rfl | rfl | rfl | rfl | rfl | rfl | rfl | rfl
          | rfl | rfl | rfl | rfl | rfl <;>
          simp [RuntimeWorker.pollFinalize, hch, hs, mfind_minsert,
            RuntimeWorker.pollResponseBase, RuntimeWorker.buildResponse]
    · have hch : (RuntimeWorker.fingerprintOf hash sec
          != st.lastSyncFingerprint) = true := bne_iff_ne.mpr hfp
      constructor
      · simp [RuntimeWorker.pollFinalize, hch, mfind_minsert,
          RuntimeWorker.pollResponseBase, RuntimeWorker.buildResponse]
      · intro k hk
        simp only [RuntimeWorker.heavyKeys, List.mem_cons,
          List.not_mem_nil, or_false] at hk
        rcases hk with rfl | rfl | rfl | rfl | rfl | rfl | rfl | rfl | rfl
          | rfl | rfl | rfl | rfl | rfl <;>
          simp [RuntimeWorker.pollFinalize, hch, mfind_minsert,
            RuntimeWorker.pollResponseBase, RuntimeWorker.buildResponse]

/-- C2 witness: concrete polls exercising both the heartbeat case and the
full-snapshot case of heartbeat_only_condition. -/
theorem heartbeat_only_condition_witness :
    (RuntimeWorker.fingerprintOf (fun _ => "h")
        ⟨.null, .null, .null, .null, .null, .null, .null, "", .null, .null,
          .null, .null, .null, .null⟩ = "h"
      ∧ (7 : Int) = 7)
    ∧ mfind (RuntimeWorker.pollFinalize (fun _ => "h") ⟨7, "h", 3, 8000⟩
          ⟨.null, .null, .null, .null, .null, .null, .null, "", .null, .null,
            .null, .null, .null, .null⟩ 7
          (RuntimeWorker.pollResponseBase "t" "default" "0"
            ⟨.null, .null, .null, .null, .null, .null, .null, "", .null,
              .null, .null, .null, .null, .null⟩ 7 0 400 0)).2
        "heartbeat_only"
      = some (.bool true)
    ∧ mfind (RuntimeWorker.pollFinalize (fun _ => "h") ⟨7, "h", 3, 8000⟩
          ⟨.null, .null, .null, .null, .null, .null, .null, "", .null, .null,
            .null, .null, .null, .null⟩ 7
          (RuntimeWorker.pollResponseBase "t" "default" "0"
            ⟨.null, .null, .null, .null, .null, .null, .null, "", .null,
              .null, .null, .null, .null, .null⟩ 7 0 400 0)).2
        "graph"
      = none
    ∧ mfind (RuntimeWorker.pollFinalize (fun _ => "h") ⟨7, "old", 3, 8000⟩
          ⟨.null, .null, .null, .null, .null, .null, .null, "", .null, .null,
            .null, .null, .null, .null⟩ 7
          (RuntimeWorker.pollResponseBase "t" "default" "0"
            ⟨.null, .null, .null, .null, .null, .null, .null, "", .null,
              .null, .null, .null, .null, .null⟩ 7 0 400 0)).2
        "heartbeat_only"
      = none
    ∧ (mfind (RuntimeWorker.pollFinalize (fun _ => "h") ⟨7, "old", 3, 8000⟩
          ⟨.null, .null, .null, .null, .null, .null, .null, "", .null, .null,
            .null, .null, .null, .null⟩ 7
          (RuntimeWorker.pollResponseBase "t" "default" "0"
            ⟨.null, .null, .null, .null, .null, .null, .null, "", .null,
              .null, .null, .null, .null, .null⟩ 7 0 400 0)).2
        "graph").isSome = true := by
  have hhb := (heartbeat_only_condition (fun _ => "h") ⟨7, "h", 3, 8000⟩
      ⟨.null, .null, .null, .null, .null, .null, .null, "", .null, .null,
        .null, .null, .null, .null⟩ 7 "t" "default" "0" 7 0 400 0).1
    ⟨rfl, rfl⟩
  have hfull := (heartbeat_only_condition (fun _ => "h") ⟨7, "old", 3, 8000⟩
      ⟨.null, .null, .null, .null, .null, .null, .null, "", .null, .null,
        .null, .null, .null, .null⟩ 7 "t" "default" "0" 7 0 400 0).2
    (by rintro ⟨hfp, _⟩; exact absurd hfp (by simp [RuntimeWorker.fingerprintOf]))
  exact ⟨⟨rfl, rfl⟩, hhb.1,
    hhb.2 "graph" (by simp [RuntimeWorker.heavyKeys]),
    hfull.1, hfull.2 "graph" (by simp [RuntimeWorker.heavyKeys])⟩

/-- C9: for every pair of snapshots a and b, the snapshot diff is symmetric
in set counts: compare(a,b).summary.nodes_added equals
compare(b,a).summary.nodes_removed, and likewise for topics and domains,
because added/removed are set differences of the same name sets in opposite
directions. -/
theorem snapshot_diff_symmetric (sha : String → String) (a b : JVal) :
    ((SnapshotDiff.compare sha a b).objGet "summary").objGet "nodes_added"
        = ((SnapshotDiff.compare sha b a).objGet "summary").objGet "nodes_removed"
      ∧ ((SnapshotDiff.compare sha a b).objGet "summary").objGet "topics_added"
        = ((SnapshotDiff.compare sha b a).objGet "summary").objGet "topics_removed"
      ∧ ((SnapshotDiff.compare sha a b).objGet "summary").objGet "domains_added"
        = ((SnapshotDiff.compare sha b a).objGet "summary").objGet "domains_removed" := by
  refine ⟨?_, ?_, ?_⟩ <;> rfl

/-- C6: the health evaluator is a pure function of (domains, graph, tf)
whose status is critical iff zombies, domain conflicts or misinitialized
processes are present; otherwise warning iff duplicate nodes, TF warnings,
orphan topics or missing servers are present; otherwise healthy. -/
theorem health_status_characterization (domains : List JVal) (graph tfNav2 : JVal) :
    ((HealthMonitor.evaluate domains graph tfNav2).objGet "status" = .str "critical"
      ↔ (HealthMonitor.zombieNodes domains ≠ []
          ∨ HealthMonitor.domainConflicts domains ≠ []
          ∨ (graph.objGet "misinitialized_processes").toArr ≠ []))
    ∧ ((HealthMonitor.evaluate domains graph tfNav2).objGet "status" = .str "warning"
      ↔ (¬ (HealthMonitor.zombieNodes domains ≠ []
            ∨ HealthMonitor.domainConflicts domains ≠ []
            ∨ (graph.objGet "misinitialized_processes").toArr ≠ [])
          ∧ ((graph.objGet "duplicate_node_names").toArr ≠ []
            ∨ (tfNav2.objGet "tf_warnings").toArr ≠ []
            ∨ (graph.objGet "publishers_without_subscribers").toArr ≠ []
            ∨ (graph.objGet "subscribers_without_publishers").toArr ≠ []
            ∨ (graph.objGet "missing_service_servers").toArr ≠ []
            ∨ (graph.objGet "missing_action_servers").toArr ≠ [])))
    ∧ ((HealthMonitor.evaluate domains graph tfNav2).objGet "status" = .str "healthy"
      ↔ (¬ (HealthMonitor.zombieNodes domains ≠ []
            ∨ HealthMonitor.domainConflicts domains ≠ []
            ∨ (graph.objGet "misinitialized_processes").toArr ≠ [])
          ∧ ¬ ((graph.objGet "duplicate_node_names").toArr ≠ []
            ∨ (tfNav2.objGet "tf_warnings").toArr ≠ []
            ∨ (graph.objGet "publishers_without_subscribers").toArr ≠ []
            ∨ (graph.objGet "subscribers_without_publishers").toArr ≠ []
            ∨ (graph.objGet "missing_service_servers").toArr ≠ []
            ∨ (graph.objGet "missing_action_servers").toArr ≠ []))) := by
  have hstat : (HealthMonitor.evaluate domains graph tfNav2).objGet "status"
      = .str (if ¬ (HealthMonitor.zombieNodes domains).isEmpty
            ∨ ¬ (HealthMonitor.domainConflicts domains).isEmpty
            ∨ ¬ ((graph.objGet "misinitialized_processes").toArr).isEmpty then
          "critical"
        else if ¬ ((graph.objGet "duplicate_node_names").toArr).isEmpty
            ∨ ¬ ((tfNav2.objGet "tf_warnings").toArr).isEmpty
            ∨ ¬ ((graph.objGet "publishers_without_subscribers").toArr).isEmpty
            ∨ ¬ ((graph.objGet "subscribers_without_publishers").toArr).isEmpty
            ∨ ¬ ((graph.objGet "missing_service_servers").toArr).isEmpty
            ∨ ¬ ((graph.objGet "missing_action_servers").toArr).isEmpty then
          "warning"
        else "healthy") := by
    simp [HealthMonitor.evaluate, JVal.objGet, JVal.toObj, mfind_minsert]
  rw [hstat]
  by_cases hc : HealthMonitor.zombieNodes domains ≠ []
      ∨ HealthMonitor.domainConflicts domains ≠ []
      ∨ (graph.objGet "misinitialized_processes").toArr ≠ [] <;>
    by_cases hw : (graph.objGet "duplicate_node_names").toArr ≠ []
        ∨ (tfNav2.objGet "tf_warnings").toArr ≠ []
        ∨ (graph.objGet "publishers_without_subscribers").toArr ≠ []
        ∨ (graph.objGet "subscribers_without_publishers").toArr ≠ []
        ∨ (graph.objGet "missing_service_servers").toArr ≠ []
        ∨ (graph.objGet "missing_action_servers").toArr ≠ [] <;>
    simp_all [List.isEmpty_iff]

/-- C8 counterexample: export_telemetry is a recognized action, yet the
re-poll guard at the end of RuntimeWorker::runAction does queue an immediate
re-poll after it (the claim states no re-poll is queued after telemetry
export). -/
theorem repoll_after_export_telemetry :
    RuntimeWorker.queuesImmediateRepoll "export_telemetry" = true
      ∧ "export_telemetry" ∈ RuntimeWorker.recognizedActions := by
  constructor
  · rfl
  · simp [RuntimeWorker.recognizedActions]

/-- C8 (amended): after every action except exactly snapshot_json,
snapshot_yaml, compare_snapshots, compare_with_previous and session_export,
the orchestrator queues an immediate re-poll with the last request; telemetry
export is not excluded and does queue a re-poll. -/
theorem repoll_condition_characterization (action : String) :
    RuntimeWorker.queuesImmediateRepoll action = true
      ↔ action ∉ ["snapshot_json", "snapshot_yaml", "compare_snapshots",
          "compare_with_previous", "session_export"] := by
  simp [RuntimeWorker.queuesImmediateRepoll]
  tauto


/-- C7: for every pid P and every acyclic parent-to-children table read
from /proc, killProcessTree sends the chosen signal (SIGKILL when force,
SIGTERM otherwise) to every transitive descendant of P exactly once, to P
itself exactly once and to no other pid, and returns true iff every signal
delivery succeeded. -/
theorem kill_process_tree_exact (tbl : List ProcessManager.ProcStatRow)
    (killOk : Int → Bool) (pid : Int) (force : Bool)
    (hacyc : ∀ q, ¬ ProcessManager.Reaches tbl q q) :
    (∀ q, ProcessManager.Reaches tbl pid q →
        ((ProcessManager.killProcessTree tbl killOk pid force).2.map
          (fun s => s.1)).count q = 1)
    ∧ ((ProcessManager.killProcessTree tbl killOk pid force).2.map
          (fun s => s.1)).count pid = 1
    ∧ (∀ q, q ≠ pid → ¬ ProcessManager.Reaches tbl pid q →
        ((ProcessManager.killProcessTree tbl killOk pid force).2.map
          (fun s => s.1)).count q = 0)
    ∧ (∀ s ∈ (ProcessManager.killProcessTree tbl killOk pid force).2,
        s.2 = (if force then "SIGKILL" else "SIGTERM"))
    ∧ ((ProcessManager.killProcessTree tbl killOk pid force).1 = true
        ↔ ∀ s ∈ (ProcessManager.killProcessTree tbl killOk pid force).2,
            killOk s.1 = true) := by
  have hnd : (ProcessManager.collectChildrenRecursive tbl (tbl.length + 1) pid []).Nodup :=
    ProcessManager.collect_nodup tbl _ pid [] List.nodup_nil
  have hiff := ProcessManager.collect_children_iff tbl pid
  refine ⟨?_, ?_, ?_, ?_, ProcessManager.kill_success_iff tbl killOk pid force⟩
  · intro q hq
    have hqpid : q ∉ [pid] := by
      simp only [List.mem_singleton]
      intro he
      exact hacyc pid (he ▸ hq)
    rw [ProcessManager.kill_trace_pids, List.count_append,
      ProcessManager.nodup_count _ hnd q, if_pos ((hiff q).mpr hq),
      List.count_eq_zero_of_not_mem hqpid]
  · have hpidmem :
        pid ∉ ProcessManager.collectChildrenRecursive tbl (tbl.length + 1) pid [] :=
      fun hm => hacyc pid ((hiff pid).mp hm)
    rw [ProcessManager.kill_trace_pids, List.count_append,
      List.count_eq_zero_of_not_mem hpidmem]
    simp
  · intro q hqpid hqr
    have h1 : q ∉ ProcessManager.collectChildrenRecursive tbl (tbl.length + 1) pid [] :=
      fun hm => hqr ((hiff q).mp hm)
    have h2 : q ∉ [pid] := by simp [hqpid]
    rw [ProcessManager.kill_trace_pids, List.count_append,
      List.count_eq_zero_of_not_mem h1, List.count_eq_zero_of_not_mem h2]
  · intro s hs
    rw [ProcessManager.kill_snd] at hs
    rcases List.mem_append.mp hs with hs1 | hs1
    · obtain ⟨c, hc, rfl⟩ := List.mem_map.mp hs1
      rfl
    · rw [List.mem_singleton.mp hs1]

/-- C7 witness: the spec scenario tree 100 to 101 and 102, 101 to 103, with
force=true and every kill call succeeding: pids 103 and 100 are each
signaled exactly once, an unrelated pid is never signaled, and the call
reports success. -/
theorem kill_process_tree_exact_witness :
    ((ProcessManager.killProcessTree ProcessManager.killTreeTbl
        (fun _ => true) 100 true).2.map (fun s => s.1)).count 103 = 1
    ∧ ((ProcessManager.killProcessTree ProcessManager.killTreeTbl
        (fun _ => true) 100 true).2.map (fun s => s.1)).count 100 = 1
    ∧ ((ProcessManager.killProcessTree ProcessManager.killTreeTbl
        (fun _ => true) 100 true).2.map (fun s => s.1)).count 555 = 0
    ∧ (ProcessManager.killProcessTree ProcessManager.killTreeTbl
        (fun _ => true) 100 true).1 = true := by
  have hacyc : ∀ q, ¬ ProcessManager.Reaches ProcessManager.killTreeTbl q q :=
    ProcessManager.acyclic_of_collect ProcessManager.killTreeTbl (by decide)
  have hmain := kill_process_tree_exact ProcessManager.killTreeTbl
    (fun _ => true) 100 true hacyc
  refine ⟨?_, hmain.2.1, ?_, ?_⟩
  · exact hmain.1 103
      ((ProcessManager.collect_children_iff ProcessManager.killTreeTbl 100 103).mp (by decide))
  · refine hmain.2.2.1 555 (by decide) (fun hr => ?_)
    exact absurd
      ((ProcessManager.collect_children_iff ProcessManager.killTreeTbl 100 555).mpr hr)
      (by decide)
  · exact hmain.2.2.2.2.mpr (fun s _ => rfl)

end RosScope
